import Mathlib

/-!
Shallow embedding of the real-time MTA simulator's core
(`complexes.py`, `mta_graph.py`, `mta_complex_graph.py`):
the complex registry resolver, the route sequencers, the two
graph builders (directed all-pairs / undirected adjacency),
and the query surface, together with theorems settling the
specification claims.

Python dictionaries are modelled as association lists where a later
insert replaces the earlier binding; pandas tables are modelled as
lists of rows; raised exceptions are modelled with `Except PyErr`.
-/

set_option maxHeartbeats 1000000

namespace MTA

/-- The exceptions the embedded code can raise: `RuntimeError` from
`_assert_built`, `IndexError` from `.iloc[0]` / `s[-1]`, and the
networkx exception classes (`NetworkXError`, `NodeNotFound`,
`NetworkXNoPath`).  Only `NetworkXNoPath` is ever caught by the code. -/
inductive PyErr where
  | notBuilt
  | indexError
  | networkXError
  | nodeNotFound
  | noPath
deriving DecidableEq, Repr

/-- Python `dict.get`: first binding found; construction keeps keys unique. -/
def dget (m : List (String × α)) (k : String) : Option α :=
  (m.find? (fun p => p.1 == k)).map (·.2)

/-- Python `dict` assignment: replaces any existing binding for the key. -/
def dinsert (m : List (String × α)) (k : String) (v : α) : List (String × α) :=
  m.filter (fun p => !(p.1 == k)) ++ [(k, v)]

/-- Emptiness test on the underlying character list (kernel-reducible). -/
def strEmpty (s : String) : Bool := s.data.isEmpty

/-- Python `s[-1]` (call sites guard against the empty string). -/
def lastCh (s : String) : Char := s.data.getLastD 'A'

/-- Python `s[:-1]`. -/
def dropLastStr (s : String) : String := ⟨s.data.dropLast⟩

/-- Splitting a character list on a separator character, as Python
`str.split(sep)` (so `""` splits to `[""]`). -/
def splitOnChar (c : Char) : List Char → List (List Char)
  | [] => [[]]
  | x :: xs =>
    let r := splitOnChar c xs
    if x == c then [] :: r
    else
      match r with
      | [] => [[x]]
      | h :: t => (x :: h) :: t

/-- Python `str.strip()`: whitespace removed from both ends. -/
def trimChars (l : List Char) : List Char :=
  ((l.dropWhile Char.isWhitespace).reverse.dropWhile Char.isWhitespace).reverse

/-- Code-point lexicographic order on character lists, as Python's `<=`. -/
def charsLe : List Char → List Char → Bool
  | [], _ => true
  | _ :: _, [] => false
  | a :: as, b :: bs =>
    if a.toNat < b.toNat then true
    else if b.toNat < a.toNat then false
    else charsLe as bs

/-- Python string `<=` used by `sorted`. -/
def strLe (a b : String) : Bool := charsLe a.data b.data

/-- Python truthiness of an optional string (`if complex_id:`). -/
def truthyS : Option String → Bool
  | some s => !(strEmpty s)
  | none => false

/-- A row of `Complexes.csv`: `Complex ID`, `Number Of Stations In Complex`,
and the raw semicolon-delimited `GTFS Stop IDs` field. -/
structure RegRow where
  complexId : String
  numStations : Nat
  gtfsStopIds : String
deriving DecidableEq, Repr

/-- `[gtfs.strip() for gtfs in gtfs_stop_ids.split(';') if gtfs.strip()]` -/
def parseGtfsList (s : String) : List String :=
  (((splitOnChar ';' s.data).map (fun x => (⟨trimChars x⟩ : String)))).filter
    (fun x => !(strEmpty x))

/-- `gtfs[-1] in ['N', 'S']` -/
def isDirSuffix (c : Char) : Bool := c == 'N' || c == 'S'

/-- The state of a `ComplexesData` instance after `__init__`. -/
structure ComplexesData where
  complex_id_by_gtfs : List (String × String)
  complex_info : List (String × (Nat × List String))
  stop_name_map : List (String × String)
deriving DecidableEq, Repr

/-- The inner loop of `ComplexesData.__init__`: register a GTFS id and,
when it carries a directional suffix, also its suffix-stripped form. -/
def insertGtfs (m : List (String × String)) (gtfs cid : String) :
    List (String × String) :=
  let m1 := dinsert m gtfs cid
  if isDirSuffix (lastCh gtfs) then dinsert m1 (dropLastStr gtfs) cid else m1

/-- `ComplexesData.__init__`, over a registry (rows of `Complexes.csv`)
and a stops table (rows `(stop_id, stop_name)` of `stops.txt`). -/
def ComplexesData.build (registry : List RegRow)
    (stopsTable : List (String × String)) : ComplexesData :=
  registry.foldl
    (fun cd row =>
      let lst := parseGtfsList row.gtfsStopIds
      { cd with
        complex_info := dinsert cd.complex_info row.complexId (row.numStations, lst)
        complex_id_by_gtfs := lst.foldl (fun m g => insertGtfs m g row.complexId)
          cd.complex_id_by_gtfs })
    { complex_id_by_gtfs := []
      complex_info := []
      stop_name_map := stopsTable.foldl (fun m p => dinsert m p.1 p.2) [] }

/-- `get_complex_id_by_gtfs_stop_id` over a raw mapping: exact match first
(truthiness test), then suffix stripped when the id ends in N/S, else with
`N` appended; indexing `s[-1]` on the empty string raises `IndexError`. -/
def resolveMap (m : List (String × String)) (s : String) :
    Except PyErr (Option String) :=
  if truthyS (dget m s) then .ok (dget m s)
  else if strEmpty s then .error .indexError
  else if isDirSuffix (lastCh s) then .ok (dget m (dropLastStr s))
  else .ok (dget m (s ++ "N"))

/-- `ComplexesData.get_complex_id_by_gtfs_stop_id` -/
def get_complex_id_by_gtfs_stop_id (cd : ComplexesData) (s : String) :
    Except PyErr (Option String) :=
  resolveMap cd.complex_id_by_gtfs s

/-- `ComplexesData.get_gtfs_stop_ids_by_complex_id` -/
def get_gtfs_stop_ids_by_complex_id (cd : ComplexesData) (c : String) :
    Option (List String) :=
  (dget cd.complex_info c).map (·.2)

/-- `ComplexesData.get_number_of_stations` -/
def get_number_of_stations (cd : ComplexesData) (c : String) : Option Nat :=
  (dget cd.complex_info c).map (·.1)

/-- `ComplexesData.get_names_of_stations` (`if not gtfs_stop_ids: return None`;
a looked-up name is kept only when truthy). -/
def get_names_of_stations (cd : ComplexesData) (c : String) :
    Option (List String) :=
  match get_gtfs_stop_ids_by_complex_id cd c with
  | none => none
  | some [] => none
  | some ids =>
    some (ids.foldl
      (fun acc sid =>
        match dget cd.stop_name_map sid with
        | some n => if !(strEmpty n) then acc ++ [n] else acc
        | none => acc) [])

/-- `ComplexesData.get_station_name`: `names[0] if names else "Unknown"`. -/
def get_station_name (cd : ComplexesData) (c : String) : String :=
  match get_names_of_stations cd c with
  | some (n :: _) => n
  | _ => "Unknown"

/-! ## GTFS tables -/

/-- A row of `trips.txt` (the columns the code uses). -/
structure TripRow where
  trip_id : String
  route_id : String
  direction_id : Nat
deriving DecidableEq, Repr

/-- A row of `stop_times.txt` (the columns the code uses). -/
structure StopTimeRow where
  trip_id : String
  stop_id : String
  stop_sequence : Nat
deriving DecidableEq, Repr

/-- The loaded GTFS tables. -/
structure GtfsTables where
  trips : List TripRow
  stop_times : List StopTimeRow
deriving DecidableEq, Repr

/-- First-occurrence deduplication, as `pandas.unique` (order-preserving). -/
def dedupFirst (l : List String) : List String :=
  l.foldl (fun acc x => if x ∈ acc then acc else acc ++ [x]) []

/-- `trips['route_id'].unique()` -/
def uniqueRoutes (t : GtfsTables) : List String :=
  dedupFirst (t.trips.map (·.route_id))

/-- `trips.query("route_id==@route and direction_id==@direction")` -/
def tripsFor (t : GtfsTables) (r : String) (d : Nat) : List TripRow :=
  t.trips.filter (fun tr => tr.route_id == r && tr.direction_id == d)

/-- `stop_times.query("trip_id==@trip_id")` -/
def stopTimesForTrip (t : GtfsTables) (tid : String) : List StopTimeRow :=
  t.stop_times.filter (fun s => s.trip_id == tid)

/-- Insertion step of a stable sort on `stop_sequence`. -/
def insertBySeq (x : StopTimeRow) : List StopTimeRow → List StopTimeRow
  | [] => [x]
  | y :: ys =>
    if x.stop_sequence < y.stop_sequence then x :: y :: ys else y :: insertBySeq x ys

/-- `sort_values("stop_sequence")` (stable on the distinct keys used here). -/
def sortBySeq (l : List StopTimeRow) : List StopTimeRow :=
  l.foldr insertBySeq []

/-- Insertion step of a sort on strings. -/
def insertStr (x : String) : List String → List String
  | [] => [x]
  | y :: ys => if strLe x y then x :: y :: ys else y :: insertStr x ys

/-- Python `sorted` on strings (lexicographic; line lists hold distinct ids). -/
def sortStrings (l : List String) : List String :=
  l.foldr insertStr []

/-- `idxmax` over keys listed in groupby (sorted) order: the first key
attaining the maximal count. -/
def argmaxFirst (keys : List String) (cnt : String → Nat) : Option String :=
  match keys with
  | [] => none
  | k :: ks => some (ks.foldl (fun b k2 => if cnt k2 > cnt b then k2 else b) k)

namespace SubwayGraph

/-- `SubwayGraph.ordered_stops`: for routes `A` and `4`, the trip with the
most stops (via `groupby`/`idxmax`, empty check first); otherwise the first
trip in source order, whose absence makes `.iloc[0]` raise `IndexError`. -/
def ordered_stops (t : GtfsTables) (route : String) (direction : Nat) :
    Except PyErr (List String) :=
  if route == "A" || route == "4" then
    let tripIds := (tripsFor t route direction).map (·.trip_id)
    let st := t.stop_times.filter (fun s => tripIds.contains s.trip_id)
    if st.isEmpty then .ok []
    else
      let keys := sortStrings (dedupFirst (st.map (·.trip_id)))
      match argmaxFirst keys
          (fun k => (st.filter (fun s => s.trip_id == k)).length) with
      | none => .ok []
      | some best =>
        .ok ((sortBySeq (st.filter (fun s => s.trip_id == best))).map (·.stop_id))
  else
    match (tripsFor t route direction).head? with
    | none => .error .indexError
    | some tr => .ok ((sortBySeq (stopTimesForTrip t tr.trip_id)).map (·.stop_id))

end SubwayGraph

namespace MTAComplexGraph

/-- `MTAComplexGraph.ordered_stops`: guarded by `_assert_built` (a
`RuntimeError` when the graph is not yet built), then the first trip
(`IndexError` when none), then resolution to complex ids with a *global*
duplicate check (`complex_id not in complex_ids`). -/
def ordered_stops (built : Bool) (cd : ComplexesData) (t : GtfsTables)
    (route : String) (direction : Nat) : Except PyErr (List String) :=
  if !built then .error .notBuilt
  else
    match (tripsFor t route direction).head? with
    | none => .error .indexError
    | some tr =>
      let gtfs := (sortBySeq (stopTimesForTrip t tr.trip_id)).map (·.stop_id)
      gtfs.foldlM
        (fun acc s => do
          let c ← get_complex_id_by_gtfs_stop_id cd s
          match c with
          | some cid =>
            pure (if !(strEmpty cid) && !(acc.contains cid) then acc ++ [cid] else acc)
          | none => pure acc)
        ([] : List String)

end MTAComplexGraph

/-! ## Graph snapshots -/

/-- The attributes attached to a node (`stop_name`, `gtfs_ids`). -/
structure NodeAttrs where
  stop_name : String
  gtfs_ids : Option (List String)
deriving DecidableEq, Repr

/-- An edge record `(u, v, lines)`. -/
abbrev EdgeRec := String × String × List String

/-- An `nx.DiGraph` snapshot: nodes and edges in insertion order. -/
structure DiGraph where
  nodes : List (String × NodeAttrs)
  edges : List EdgeRec
deriving DecidableEq, Repr

/-- An `nx.Graph` (undirected) snapshot. -/
structure UGraph where
  nodes : List (String × NodeAttrs)
  edges : List EdgeRec
deriving DecidableEq, Repr

def nodeIds (g : DiGraph) : List String := g.nodes.map (·.1)

def nodeIdsU (g : UGraph) : List String := g.nodes.map (·.1)

/-- Exact-orientation edge key match for the directed graph. -/
def keyD (u v : String) (e : EdgeRec) : Bool := e.1 == u && e.2.1 == v

/-- Either-orientation edge key match for the undirected graph. -/
def keyU (u v : String) (e : EdgeRec) : Bool :=
  (e.1 == u && e.2.1 == v) || (e.1 == v && e.2.1 == u)

def edgeLinesD (g : DiGraph) (u v : String) : Option (List String) :=
  (g.edges.find? (keyD u v)).map (·.2.2)

def edgeLinesU (g : UGraph) (u v : String) : Option (List String) :=
  (g.edges.find? (keyU u v)).map (·.2.2)

def hasEdgeD (g : DiGraph) (u v : String) : Bool := (edgeLinesD g u v).isSome

def hasEdgeU (g : UGraph) (u v : String) : Bool := (edgeLinesU g u v).isSome

/-- `G[u][v]['lines'] if G.has_edge(u, v) else []` -/
def linesGetD (g : DiGraph) (u v : String) : List String :=
  (edgeLinesD g u v).getD []

def linesGetU (g : UGraph) (u v : String) : List String :=
  (edgeLinesU g u v).getD []

/-- `if route not in lines: lines.append(route)` -/
def addLine (r : String) (ls : List String) : List String :=
  if r ∈ ls then ls else ls ++ [r]

def addNodeD (g : DiGraph) (c : String) (a : NodeAttrs) : DiGraph :=
  if (nodeIds g).contains c then g else { g with nodes := g.nodes ++ [(c, a)] }

def addNodeU (g : UGraph) (c : String) (a : NodeAttrs) : UGraph :=
  if (nodeIdsU g).contains c then g else { g with nodes := g.nodes ++ [(c, a)] }

/-- Apply the line-list update to the edge entries matching a key. -/
def updOne (k : EdgeRec → Bool) (r : String) (e : EdgeRec) : EdgeRec :=
  if k e then (e.1, e.2.1, addLine r e.2.2) else e

/-- `G.add_edge` / line-list update on an `nx.DiGraph`. -/
def addEdgeD (g : DiGraph) (u v r : String) : DiGraph :=
  if hasEdgeD g u v then
    { g with edges := g.edges.map (updOne (keyD u v) r) }
  else { g with edges := g.edges ++ [(u, v, [r])] }

/-- `G.add_edge` / line-list update on an `nx.Graph`. -/
def addEdgeU (g : UGraph) (u v r : String) : UGraph :=
  if hasEdgeU g u v then
    { g with edges := g.edges.map (updOne (keyU u v) r) }
  else { g with edges := g.edges ++ [(u, v, [r])] }

/-- The post-pass `data['lines'] = sorted(data['lines'])`. -/
def sortLinesD (g : DiGraph) : DiGraph :=
  { g with edges := g.edges.map (fun e => (e.1, e.2.1, sortStrings e.2.2)) }

def sortLinesU (g : UGraph) : UGraph :=
  { g with edges := g.edges.map (fun e => (e.1, e.2.1, sortStrings e.2.2)) }

/-- All ordered pairs `(l[i], l[j])` with `i < j`, in nested-loop order. -/
def allPairs : List α → List (α × α)
  | [] => []
  | x :: xs => (xs.map (fun y => (x, y))) ++ allPairs xs

/-- All consecutive pairs `(l[i], l[i+1])`. -/
def consecPairs : List α → List (α × α)
  | [] => []
  | [_] => []
  | x :: y :: t => (x, y) :: consecPairs (y :: t)

/-- The per-route resolution loop of both builders: map each stop through
the resolver and keep the truthy results (no collapsing of repeats). -/
def resolveSeq (cd : ComplexesData) (stops : List String) :
    Except PyErr (List String) :=
  stops.foldlM
    (fun acc s => do
      let c ← get_complex_id_by_gtfs_stop_id cd s
      match c with
      | some cid => pure (if !(strEmpty cid) then acc ++ [cid] else acc)
      | none => pure acc)
    ([] : List String)

/-- Node attributes attached at registration time. -/
def nodeAttrsFor (cd : ComplexesData) (c : String) : NodeAttrs :=
  { stop_name := get_station_name cd c
    gtfs_ids := get_gtfs_stop_ids_by_complex_id cd c }

def addNodesD (cd : ComplexesData) (g : DiGraph) (cids : List String) : DiGraph :=
  cids.foldl (fun g c => addNodeD g c (nodeAttrsFor cd c)) g

def addNodesU (cd : ComplexesData) (g : UGraph) (cids : List String) : UGraph :=
  cids.foldl (fun g c => addNodeU g c (nodeAttrsFor cd c)) g

/-- `(route, direction)` pairs in processing order. -/
def routeDirs (t : GtfsTables) : List (String × Nat) :=
  ((uniqueRoutes t).map (fun r => [(r, 0), (r, 1)])).flatten

namespace SubwayGraph

/-- The complex-id sequence `SubwayGraph.build_graph` computes for one
`(route, direction)` before emitting nodes and edges. -/
def seqFor (cd : ComplexesData) (t : GtfsTables) (r : String) (d : Nat) :
    Except PyErr (List String) := do
  let stops ← ordered_stops t r d
  resolveSeq cd stops

/-- One iteration of the route loop of `SubwayGraph.build_graph`: any
exception is caught and the graph is left unchanged; otherwise nodes are
registered and a directed edge is emitted for every pair `i < j`. -/
def step (cd : ComplexesData) (t : GtfsTables) (g : DiGraph)
    (rd : String × Nat) : DiGraph :=
  match seqFor cd t rd.1 rd.2 with
  | .error _ => g
  | .ok cids =>
    (allPairs cids).foldl (fun g p => addEdgeD g p.1 p.2 rd.1)
      (addNodesD cd g cids)

/-- `SubwayGraph.build_graph` as a function of the source tables. -/
def build_graph (t : GtfsTables) (registry : List RegRow)
    (stopsTable : List (String × String)) : DiGraph :=
  let cd := ComplexesData.build registry stopsTable
  sortLinesD ((routeDirs t).foldl (step cd t) ⟨[], []⟩)

end SubwayGraph

namespace MTAComplexGraph

/-- The complex-id sequence `MTAComplexGraph.build_graph` computes for one
`(route, direction)`: `ordered_stops` (already complex ids) fed *again*
through the resolver.  `prevBuilt` records whether `cls.G` was already set
when the build started, which `ordered_stops`'s `_assert_built` consults. -/
def seqFor (prevBuilt : Bool) (cd : ComplexesData) (t : GtfsTables)
    (r : String) (d : Nat) : Except PyErr (List String) := do
  let stops ← ordered_stops prevBuilt cd t r d
  resolveSeq cd stops

/-- One iteration of the route loop of `MTAComplexGraph.build_graph`:
errors are caught, nodes registered, and an undirected edge emitted for
every consecutive pair. -/
def step (prevBuilt : Bool) (cd : ComplexesData) (t : GtfsTables)
    (g : UGraph) (rd : String × Nat) : UGraph :=
  match seqFor prevBuilt cd t rd.1 rd.2 with
  | .error _ => g
  | .ok cids =>
    (consecPairs cids).foldl (fun g p => addEdgeU g p.1 p.2 rd.1)
      (addNodesU cd g cids)

/-- `MTAComplexGraph.build_graph` as a function of the source tables and of
whether a previous build had already set `cls.G`. -/
def build_graph (prevBuilt : Bool) (t : GtfsTables) (registry : List RegRow)
    (stopsTable : List (String × String)) : UGraph :=
  let cd := ComplexesData.build registry stopsTable
  sortLinesU ((routeDirs t).foldl (step prevBuilt cd t) ⟨[], []⟩)

end MTAComplexGraph

/-! ## networkx search primitives -/

/-- `G.successors(u)` / out-adjacency in insertion order. -/
def outNeighbors (g : DiGraph) (u : String) : List String :=
  (g.edges.filter (fun e => e.1 == u)).map (·.2.1)

/-- Adjacency of an `nx.Graph` node. -/
def neighborsU (g : UGraph) (u : String) : List String :=
  g.edges.filterMap (fun e =>
    if e.1 == u then some e.2.1
    else if e.2.1 == u then some e.1 else none)

/-- Breadth-first search over an abstract neighbor function, keeping the
reversed path to each frontier entry; nodes enter `visited` when enqueued. -/
def bfsAux (nbrs : String → List String) (target : String) :
    Nat → List (String × List String) → List String → Option (List String)
  | _, [], _ => none
  | 0, _ :: _, _ => none
  | fuel + 1, (v, revp) :: rest, visited =>
    if v == target then some revp.reverse
    else
      let new := (nbrs v).filter (fun n => !(visited.contains n))
      bfsAux nbrs target fuel (rest ++ new.map (fun n => (n, n :: revp)))
        (visited ++ new)

/-- `nx.shortest_path` (unweighted): `NodeNotFound` when either endpoint is
missing, `NetworkXNoPath` when the target is unreachable. -/
def nxShortestPathD (g : DiGraph) (s t : String) : Except PyErr (List String) :=
  if !((nodeIds g).contains s) || !((nodeIds g).contains t) then .error .nodeNotFound
  else
    match bfsAux (outNeighbors g) t (g.nodes.length + 1) [(s, [s])] [s] with
    | some p => .ok p
    | none => .error .noPath

/-- `nx.shortest_path` on an undirected graph. -/
def nxShortestPathU (g : UGraph) (s t : String) : Except PyErr (List String) :=
  if !((nodeIdsU g).contains s) || !((nodeIdsU g).contains t) then .error .nodeNotFound
  else
    match bfsAux (neighborsU g) t (g.nodes.length + 1) [(s, [s])] [s] with
    | some p => .ok p
    | none => .error .noPath

/-- All walks of exactly `n` edges starting at `s`. -/
def walksFrom (g : DiGraph) : Nat → String → List (List String)
  | 0, s => [[s]]
  | n + 1, s =>
    ((outNeighbors g s).map (fun v => (walksFrom g n v).map (fun w => s :: w))).flatten

/-- `nx.all_shortest_paths`: `NodeNotFound` when the source is missing,
`NetworkXNoPath` when the target is not reached by the predecessor search;
otherwise every minimum-length path (walks of the BFS distance). -/
def nxAllShortestPathsD (g : DiGraph) (s t : String) :
    Except PyErr (List (List String)) :=
  if !((nodeIds g).contains s) then .error .nodeNotFound
  else
    match bfsAux (outNeighbors g) t (g.nodes.length + 1) [(s, [s])] [s] with
    | none => .error .noPath
    | some p =>
      .ok ((walksFrom g (p.length - 1) s).filter (fun w => w.getLast? == some t))

/-! ## Query surface -/

/-- Python `f"{x}"` on an optional string. -/
def pyStrOpt : Option String → String
  | some s => s
  | none => "None"

/-- The class state of `SubwayGraph`: `none` before a successful build. -/
abbrev SubwayState := Option (DiGraph × ComplexesData)

/-- The class state of `MTAComplexGraph`. -/
abbrev MCState := Option (UGraph × ComplexesData)

/-- A segment dictionary produced by `get_directions_for_path`. -/
structure Segment where
  from_station : String
  from_name : Option String
  to_station : String
  to_name : Option String
  lines : List String
deriving DecidableEq, Repr

namespace SubwayGraph

/-- `SubwayGraph.successors`: `_assert_built`, then `G.successors`, which
raises `NetworkXError` for a node not in the graph. -/
def successors (st : SubwayState) (c : String) : Except PyErr (List String) :=
  match st with
  | none => .error .notBuilt
  | some (g, _) =>
    if (nodeIds g).contains c then .ok (outNeighbors g c) else .error .networkXError

/-- `SubwayGraph.connecting_lines` -/
def connecting_lines (st : SubwayState) (u v : String) :
    Except PyErr (List String) :=
  match st with
  | none => .error .notBuilt
  | some (g, _) => .ok (linesGetD g u v)

/-- Union of the line sets of the edges incident to a node. -/
def incidentLines (g : DiGraph) (c : String) : List String :=
  ((g.edges.filter (fun e => e.1 == c)).map (·.2.2)).flatten ++
    ((g.edges.filter (fun e => e.2.1 == c)).map (·.2.2)).flatten

/-- `SubwayGraph.lines_at_complex_id` -/
def lines_at_complex_id (st : SubwayState) (c : String) :
    Except PyErr (List String) :=
  match st with
  | none => .error .notBuilt
  | some (g, _) =>
    if strEmpty c || !((nodeIds g).contains c) then .ok []
    else .ok (sortStrings (dedupFirst (incidentLines g c)))

/-- `SubwayGraph.lines_at_gtfs_stop_id` -/
def lines_at_gtfs_stop_id (st : SubwayState) (s : String) :
    Except PyErr (List String) :=
  match st with
  | none => .error .notBuilt
  | some (g, cd) => do
    let c ← get_complex_id_by_gtfs_stop_id cd s
    match c with
    | none => pure []
    | some cid =>
      if strEmpty cid || !((nodeIds g).contains cid) then pure []
      else pure (sortStrings (dedupFirst (incidentLines g cid)))

/-- `SubwayGraph.stop_name_to_complex_id` -/
def stop_name_to_complex_id (st : SubwayState) (name : String) :
    Except PyErr (Option String) :=
  match st with
  | none => .error .notBuilt
  | some (g, _) => .ok ((g.nodes.find? (fun p => p.2.stop_name == name)).map (·.1))

/-- `SubwayGraph.complex_id_to_name` -/
def complex_id_to_name (st : SubwayState) (c : String) :
    Except PyErr (Option String) :=
  match st with
  | none => .error .notBuilt
  | some (g, _) => .ok ((g.nodes.find? (fun p => p.1 == c)).map (·.2.stop_name))

/-- `SubwayGraph.shortest_path`: `nx.NetworkXNoPath` is caught and becomes
`None`; `NodeNotFound` propagates. -/
def shortest_path (st : SubwayState) (a b : String) :
    Except PyErr (Option (List String)) :=
  match st with
  | none => .error .notBuilt
  | some (g, _) =>
    match nxShortestPathD g a b with
    | .ok p => .ok (some p)
    | .error .noPath => .ok none
    | .error e => .error e

/-- `SubwayGraph.all_shortest_paths`: `NetworkXNoPath` is caught and
becomes `[]`; `NodeNotFound` propagates. -/
def all_shortest_paths (st : SubwayState) (a b : String) :
    Except PyErr (List (List String)) :=
  match st with
  | none => .error .notBuilt
  | some (g, _) =>
    match nxAllShortestPathsD g a b with
    | .ok l => .ok l
    | .error .noPath => .ok []
    | .error e => .error e

/-- `SubwayGraph.shortest_path_with_lines` -/
def shortest_path_with_lines (st : SubwayState) (a b : String) :
    Except PyErr (Option (List (String × List String))) := do
  let po ← shortest_path st a b
  match po with
  | none => pure none
  | some path =>
    if path.isEmpty then pure none
    else do
      let segs ← (consecPairs path).mapM (fun uv => do
        let ls ← connecting_lines st uv.1 uv.2
        pure (uv.1, ls))
      pure (some (segs ++ [(path.getLastD "", [])]))

/-- `SubwayGraph.get_directions` -/
def get_directions (st : SubwayState) (a b : String) :
    Except PyErr (Option String) := do
  let pwlo ← shortest_path_with_lines st a b
  match pwlo with
  | none => pure none
  | some pwl =>
    if pwl.isEmpty then pure none
    else do
      let cur := (pwl.headD ("", [])).1
      let curName ← complex_id_to_name st cur
      let steps ← (consecPairs pwl).mapM (fun s2 => do
        let nm ← complex_id_to_name st s2.2.1
        if !(s2.1.2.isEmpty) then
          pure ("Take the " ++ String.intercalate ", " s2.1.2 ++ " trains to " ++
            pyStrOpt nm ++ " (" ++ s2.2.1 ++ ")")
        else
          pure ("Transfer at " ++ pyStrOpt nm ++ " (" ++ s2.2.1 ++ ")"))
      pure (some (String.intercalate "\n"
        (("Start at " ++ pyStrOpt curName ++ " (" ++ cur ++ ")") :: steps)))

/-- `SubwayGraph.get_directions_for_path` -/
def get_directions_for_path (st : SubwayState) (path : List String) :
    Except PyErr (List Segment) :=
  (consecPairs path).mapM (fun uv => do
    let fn ← complex_id_to_name st uv.1
    let tn ← complex_id_to_name st uv.2
    let ls ← connecting_lines st uv.1 uv.2
    pure ⟨uv.1, fn, uv.2, tn, ls⟩)

/-- `SubwayGraph.get_all_directions` -/
def get_all_directions (st : SubwayState) (a b : String) :
    Except PyErr (List (List Segment)) := do
  let paths ← all_shortest_paths st a b
  paths.mapM (get_directions_for_path st)

end SubwayGraph

namespace MTAComplexGraph

/-- `MTAComplexGraph.connecting_lines` -/
def connecting_lines (st : MCState) (u v : String) : Except PyErr (List String) :=
  match st with
  | none => .error .notBuilt
  | some (g, _) => .ok (if hasEdgeU g u v then linesGetU g u v else [])

/-- `MTAComplexGraph.shortest_path`: returns the path together with the
line list of each hop; `NetworkXNoPath` is caught as `([], [])`. -/
def shortest_path (st : MCState) (a b : String) :
    Except PyErr (List String × List (List String)) :=
  match st with
  | none => .error .notBuilt
  | some (g, _) =>
    match nxShortestPathU g a b with
    | .ok p => .ok (p, (consecPairs p).map (fun uv => linesGetU g uv.1 uv.2))
    | .error .noPath => .ok ([], [])
    | .error e => .error e

end MTAComplexGraph

/-! ## Specification-side notions -/

/-- The specification's step 1 collapse: runs of consecutive repeats of the
same complex id reduced to a single occurrence ("deduplicated sequence"). -/
def collapseRuns : List String → List String
  | [] => []
  | [x] => [x]
  | x :: y :: t =>
    if x == y then collapseRuns (y :: t) else x :: collapseRuns (y :: t)

/-- Well-formedness of a directed snapshot: every edge endpoint is a node
(true of every graph networkx can represent). -/
def WFD (g : DiGraph) : Prop :=
  ∀ e ∈ g.edges, e.1 ∈ nodeIds g ∧ e.2.1 ∈ nodeIds g

/-- One step of the directed edge relation of a snapshot. -/
def RelD (g : DiGraph) (u v : String) : Prop :=
  ∃ e ∈ g.edges, e.1 = u ∧ e.2.1 = v

/-- Reachability along directed edges. -/
def ReachD (g : DiGraph) : String → String → Prop :=
  Relation.ReflTransGen (RelD g)

/-- One step of the undirected edge relation of a snapshot. -/
def RelU (g : UGraph) (u v : String) : Prop :=
  ∃ e ∈ g.edges, (e.1 = u ∧ e.2.1 = v) ∨ (e.1 = v ∧ e.2.1 = u)

/-- Reachability along undirected edges. -/
def ReachU (g : UGraph) : String → String → Prop :=
  Relation.ReflTransGen (RelU g)

/-- Unordered-pair equality of edge keys. -/
def SameU (a b u v : String) : Prop := (a = u ∧ b = v) ∨ (a = v ∧ b = u)

/-- The edge emissions of one `(route, direction)` iteration of
`SubwayGraph.build_graph` (policy B: all pairs in sequence order). -/
def emitsD (cd : ComplexesData) (t : GtfsTables) (rd : String × Nat)
    (a b r' : String) : Prop :=
  ∃ s, SubwayGraph.seqFor cd t rd.1 rd.2 = .ok s ∧ r' = rd.1 ∧ (a, b) ∈ allPairs s

/-- The edge emissions of one `(route, direction)` iteration of
`MTAComplexGraph.build_graph` (policy A: consecutive pairs, undirected). -/
def emitsU (prevBuilt : Bool) (cd : ComplexesData) (t : GtfsTables)
    (rd : String × Nat) (a b r' : String) : Prop :=
  ∃ s, MTAComplexGraph.seqFor prevBuilt cd t rd.1 rd.2 = .ok s ∧ r' = rd.1 ∧
    ((a, b) ∈ consecPairs s ∨ (b, a) ∈ consecPairs s)

/-- Node display name straight from the snapshot (`G.nodes[c]["stop_name"]`
when present). -/
def nodeNameD (g : DiGraph) (c : String) : Option String :=
  (g.nodes.find? (fun p => p.1 == c)).map (·.2.stop_name)

/-- The `(station, lines)` list `shortest_path_with_lines` derives from a
path: each node paired with the lines of its outgoing hop, the final node
with `[]`. -/
def withLines (g : DiGraph) (p : List String) : List (String × List String) :=
  (consecPairs p).map (fun uv => (uv.1, linesGetD g uv.1 uv.2)) ++
    [(p.getLastD "", [])]

/-- The text `get_directions` emits for one consecutive pair of
`(station, lines)` entries. -/
def stepRender (g : DiGraph)
    (s2 : (String × List String) × (String × List String)) : String :=
  if !(s2.1.2.isEmpty) then
    "Take the " ++ String.intercalate ", " s2.1.2 ++ " trains to " ++
      pyStrOpt (nodeNameD g s2.2.1) ++ " (" ++ s2.2.1 ++ ")"
  else
    "Transfer at " ++ pyStrOpt (nodeNameD g s2.2.1) ++ " (" ++ s2.2.1 ++ ")"

/-- Modelled from the spec's directions wording: per hop, when the hop's
line list is non-empty, `"Take the {comma-joined lines} trains to
{name} ({id})"`, else `"Transfer at {name} ({id})"`. -/
def hopLine (g : DiGraph) (uv : String × String) : String :=
  if (linesGetD g uv.1 uv.2).isEmpty then
    "Transfer at " ++ pyStrOpt (nodeNameD g uv.2) ++ " (" ++ uv.2 ++ ")"
  else
    "Take the " ++ String.intercalate ", " (linesGetD g uv.1 uv.2) ++
      " trains to " ++ pyStrOpt (nodeNameD g uv.2) ++ " (" ++ uv.2 ++ ")"

/-- Modelled from the spec's directions wording: the newline-join of a
first `"Start at {name} ({id})"` line and one rendered line per hop of the
path. -/
def directionsSpec (g : DiGraph) (p : List String) : String :=
  String.intercalate "\n"
    (("Start at " ++ pyStrOpt (nodeNameD g (p.headD "")) ++ " (" ++
        p.headD "" ++ ")") :: (consecPairs p).map (hopLine g))

/-! ## Concrete fixtures -/

/-- One route `R`, one trip, two stops, two resolvable complexes. -/
def T1 : GtfsTables := ⟨[⟨"t1", "R", 0⟩], [⟨"t1", "1N", 1⟩, ⟨"t1", "2N", 2⟩]⟩

def R1 : List RegRow := [⟨"1", 1, "1N"⟩, ⟨"2", 1, "2N"⟩]

def S1 : List (String × String) := [("1N", "Station One"), ("2N", "Station Two")]

/-- One trip whose two consecutive raw stops belong to the same complex. -/
def TSelf : GtfsTables :=
  ⟨[⟨"t1", "R", 0⟩], [⟨"t1", "A01N", 1⟩, ⟨"t1", "A02N", 2⟩]⟩

def RSelf : List RegRow := [⟨"C", 1, "A01N;A02N"⟩]

def SSelf : List (String × String) := [("A01N", "Alpha"), ("A02N", "Alpha Too")]

/-- The directions-formatting scenario of the specification: path
`[idA, idB, idC]`, lines `["N","Q"]` then `[]`. -/
def g9 : DiGraph :=
  ⟨[("idA", ⟨"A", none⟩), ("idB", ⟨"B", none⟩), ("idC", ⟨"C", none⟩)],
    [("idA", "idB", ["N", "Q"]), ("idB", "idC", [])]⟩

def cd9 : ComplexesData := ⟨[], [], []⟩

/-- The directed snapshot built from the `T1` tables. -/
def gBuilt : DiGraph := SubwayGraph.build_graph T1 R1 S1

/-- The undirected snapshot built (second build) from the `T1` tables. -/
def uBuilt : UGraph := MTAComplexGraph.build_graph true T1 R1 S1

def cdBuilt : ComplexesData := ComplexesData.build R1 S1

/-- Two isolated nodes (a disconnected built-like snapshot). -/
def gDisc : DiGraph := ⟨[("n1", ⟨"One", none⟩), ("n2", ⟨"Two", none⟩)], []⟩

def gDiscU : UGraph := ⟨[("m1", ⟨"One", none⟩), ("m2", ⟨"Two", none⟩)], []⟩

/-! ## List lemmas -/

lemma mem_addLine {r' r : String} {ls : List String} :
    r' ∈ addLine r ls ↔ r' ∈ ls ∨ r' = r := by
  unfold addLine
  split
  · exact ⟨Or.inl, fun h => h.elim id (fun h2 => h2 ▸ ‹r ∈ ls›)⟩
  · simp

lemma mem_insertStr {a x : String} : ∀ {l : List String},
    a ∈ insertStr x l ↔ a = x ∨ a ∈ l := by
  intro l
  induction l with
  | nil => simp [insertStr]
  | cons y ys ih =>
    unfold insertStr
    split
    · simp
    · simp only [List.mem_cons, ih]
      tauto

lemma mem_sortStrings {a : String} : ∀ {l : List String},
    a ∈ sortStrings l ↔ a ∈ l := by
  intro l
  induction l with
  | nil => simp [sortStrings]
  | cons x xs ih =>
    simp only [sortStrings, List.foldr_cons] at ih ⊢
    rw [mem_insertStr, ih, List.mem_cons]

lemma collapseRuns_sublist : ∀ l : List String, List.Sublist (collapseRuns l) l := by
  intro l
  induction l with
  | nil => exact .slnil
  | cons x xs ih =>
    cases xs with
    | nil => exact (List.Sublist.refl _)
    | cons y t =>
      rw [collapseRuns]
      split
      · exact ih.cons x
      · exact ih.cons₂ x

lemma mem_allPairs {a b : α} : ∀ {l : List α}, (a, b) ∈ allPairs l ↔ List.Sublist [a, b] l := by
  intro l
  induction l with
  | nil => simp [allPairs]
  | cons x xs ih =>
    simp only [allPairs, List.mem_append, List.mem_map, ih]
    constructor
    · rintro (⟨y, hy, he⟩ | h)
      · obtain ⟨rfl, rfl⟩ := Prod.mk.injEq .. ▸ he
        exact (List.singleton_sublist.mpr hy).cons₂ _
      · exact h.cons x
    · intro h
      cases h with
      | cons _ h2 => exact Or.inr h2
      | cons₂ _ h2 => exact Or.inl ⟨b, List.singleton_sublist.mp h2, rfl⟩

/-! ## Edge-update lemmas (directed) -/

lemma updOne_fst (k : EdgeRec → Bool) (r : String) (e : EdgeRec) :
    (updOne k r e).1 = e.1 := by
  unfold updOne; split <;> rfl

lemma updOne_snd_fst (k : EdgeRec → Bool) (r : String) (e : EdgeRec) :
    (updOne k r e).2.1 = e.2.1 := by
  unfold updOne; split <;> rfl

lemma keyD_updOne (a b : String) (k : EdgeRec → Bool) (r : String) (e : EdgeRec) :
    keyD a b (updOne k r e) = keyD a b e := by
  unfold keyD; rw [updOne_fst, updOne_snd_fst]

lemma keyU_updOne (a b : String) (k : EdgeRec → Bool) (r : String) (e : EdgeRec) :
    keyU a b (updOne k r e) = keyU a b e := by
  unfold keyU; rw [updOne_fst, updOne_snd_fst]

lemma find?_map_keyfix (p : EdgeRec → Bool) (f : EdgeRec → EdgeRec)
    (hf : ∀ e, p (f e) = p e) :
    ∀ l : List EdgeRec, (l.map f).find? p = (l.find? p).map f := by
  intro l
  induction l with
  | nil => rfl
  | cons e t ih =>
    by_cases hpe : p e = true
    · rw [List.map_cons, List.find?_cons_of_pos _ (by rw [hf]; exact hpe),
        List.find?_cons_of_pos _ hpe, Option.map_some']
    · have hpe' : p (f e) ≠ true := by rw [hf]; exact hpe
      rw [List.map_cons, List.find?_cons_of_neg _ hpe',
        List.find?_cons_of_neg _ hpe, ih]

lemma keyD_true_iff {a b : String} {e : EdgeRec} :
    keyD a b e = true ↔ e.1 = a ∧ e.2.1 = b := by
  simp [keyD]

lemma keyU_true_iff {a b : String} {e : EdgeRec} :
    keyU a b e = true ↔ (e.1 = a ∧ e.2.1 = b) ∨ (e.1 = b ∧ e.2.1 = a) := by
  simp [keyU]

lemma hasEdgeD_iff_find? {g : DiGraph} {u v : String} :
    hasEdgeD g u v = true ↔ (g.edges.find? (keyD u v)).isSome = true := by
  simp [hasEdgeD, edgeLinesD]

lemma mem_linesGetD_addEdgeD {g : DiGraph} {u v r a b r' : String} :
    r' ∈ linesGetD (addEdgeD g u v r) a b ↔
      r' ∈ linesGetD g a b ∨ (a = u ∧ b = v ∧ r' = r) := by
  unfold addEdgeD
  by_cases h : hasEdgeD g u v = true
  · rw [if_pos h]
    have hmap := find?_map_keyfix (keyD a b) (updOne (keyD u v) r)
      (fun e => keyD_updOne a b _ _ e) g.edges
    simp only [linesGetD, edgeLinesD]
    rw [hmap]
    cases hfind : g.edges.find? (keyD a b) with
    | none =>
      simp only [Option.map_none', Option.getD_none, List.not_mem_nil, false_iff]
      rintro (hmem | ⟨rfl, rfl, rfl⟩)
      · exact hmem
      · rw [hasEdgeD_iff_find?, hfind] at h
        exact Bool.noConfusion h
    | some e =>
      obtain ⟨he1, he2⟩ := keyD_true_iff.mp (List.find?_some hfind)
      by_cases hab : a = u ∧ b = v
      · obtain ⟨rfl, rfl⟩ := hab
        have hk : keyD a b e = true := keyD_true_iff.mpr ⟨he1, he2⟩
        simp [updOne, hk, mem_addLine]
      · have hk : ¬ keyD u v e = true := by
          rw [keyD_true_iff]
          rintro ⟨h1, h2⟩
          exact hab ⟨he1 ▸ h1.symm ▸ rfl, he2 ▸ h2.symm ▸ rfl⟩
        simp only [updOne, if_neg hk, Option.map_some', Option.getD_some]
        constructor
        · exact Or.inl
        · rintro (hmem | ⟨rfl, rfl, rfl⟩)
          · exact hmem
          · exact absurd ⟨rfl, rfl⟩ hab
  · rw [if_neg h]
    have hnone : g.edges.find? (keyD u v) = none := by
      rcases ho : g.edges.find? (keyD u v) with _ | e
      · rfl
      · exact absurd (hasEdgeD_iff_find?.mpr (by rw [ho]; rfl)) h
    simp only [linesGetD, edgeLinesD, List.find?_append]
    cases hfind : g.edges.find? (keyD a b) with
    | none =>
      by_cases hab : a = u ∧ b = v
      · obtain ⟨rfl, rfl⟩ := hab
        simp [List.find?, keyD]
      · have hthis : keyD a b (u, v, [r]) = false := by
          rw [Bool.eq_false_iff]
          rw [Ne, keyD_true_iff]
          rintro ⟨h1, h2⟩
          exact hab ⟨h1.symm, h2.symm⟩
        simp only [List.find?, hthis, Option.or, Option.map_none', Option.getD_none,
          List.not_mem_nil, false_iff, false_or]
        rintro ⟨rfl, rfl, rfl⟩
        exact hab ⟨rfl, rfl⟩
    | some e =>
      have : ¬ (a = u ∧ b = v) := by
        rintro ⟨rfl, rfl⟩
        rw [hfind] at hnone
        exact Option.noConfusion hnone
      simp only [Option.or, Option.map_some', Option.getD_some]
      constructor
      · exact Or.inl
      · rintro (hmem | ⟨rfl, rfl, rfl⟩)
        · exact hmem
        · exact absurd ⟨rfl, rfl⟩ this

/-! ## Edge-update lemmas (undirected) -/

lemma keyU_congr {a b u v : String} (h : SameU a b u v) (e : EdgeRec) :
    keyU a b e = keyU u v e := by
  rcases h with ⟨rfl, rfl⟩ | ⟨rfl, rfl⟩
  · rfl
  · unfold keyU; rw [Bool.or_comm]

lemma keyU_overlap {a b u v : String} {e : EdgeRec}
    (h1 : keyU a b e = true) (h2 : keyU u v e = true) : SameU a b u v := by
  rcases keyU_true_iff.mp h1 with ⟨ha, hb⟩ | ⟨ha, hb⟩ <;>
    rcases keyU_true_iff.mp h2 with ⟨hu, hv⟩ | ⟨hu, hv⟩
  · exact Or.inl ⟨ha.symm.trans hu, hb.symm.trans hv⟩
  · exact Or.inr ⟨ha.symm.trans hu, hb.symm.trans hv⟩
  · exact Or.inr ⟨hb.symm.trans hv, ha.symm.trans hu⟩
  · exact Or.inl ⟨hb.symm.trans hv, ha.symm.trans hu⟩

lemma find?_ext (p q : EdgeRec → Bool) (hpq : ∀ e, p e = q e) :
    ∀ l : List EdgeRec, l.find? p = l.find? q := by
  intro l
  induction l with
  | nil => rfl
  | cons e t ih => simp only [List.find?, hpq, ih]

lemma hasEdgeU_iff_find? {g : UGraph} {u v : String} :
    hasEdgeU g u v = true ↔ (g.edges.find? (keyU u v)).isSome = true := by
  simp [hasEdgeU, edgeLinesU]

lemma mem_linesGetU_addEdgeU {g : UGraph} {u v r a b r' : String} :
    r' ∈ linesGetU (addEdgeU g u v r) a b ↔
      r' ∈ linesGetU g a b ∨ (SameU a b u v ∧ r' = r) := by
  unfold addEdgeU
  by_cases h : hasEdgeU g u v = true
  · rw [if_pos h]
    have hmap := find?_map_keyfix (keyU a b) (updOne (keyU u v) r)
      (fun e => keyU_updOne a b _ _ e) g.edges
    simp only [linesGetU, edgeLinesU]
    rw [hmap]
    cases hfind : g.edges.find? (keyU a b) with
    | none =>
      simp only [Option.map_none', Option.getD_none, List.not_mem_nil, false_iff]
      rintro (hmem | ⟨hsame, rfl⟩)
      · exact hmem
      · rw [hasEdgeU_iff_find?,
          find?_ext _ _ (fun e => (keyU_congr hsame e).symm), hfind] at h
        exact Bool.noConfusion h
    | some e =>
      have hkey : keyU a b e = true := List.find?_some hfind
      by_cases hpair : SameU a b u v
      · have hk : keyU u v e = true := by
          rw [← keyU_congr hpair]; exact hkey
        simp only [updOne, hk, if_true, Option.map_some', Option.getD_some,
          mem_addLine]
        constructor
        · rintro (hmem | rfl)
          · exact Or.inl hmem
          · exact Or.inr ⟨hpair, rfl⟩
        · rintro (hmem | ⟨_, rfl⟩)
          · exact Or.inl hmem
          · exact Or.inr rfl
      · have hk : ¬ keyU u v e = true := fun hk => hpair (keyU_overlap hkey hk)
        simp only [updOne, if_neg hk, Option.map_some', Option.getD_some]
        constructor
        · exact Or.inl
        · rintro (hmem | ⟨hsame, rfl⟩)
          · exact hmem
          · exact absurd hsame hpair
  · rw [if_neg h]
    have hnone : g.edges.find? (keyU u v) = none := by
      rcases ho : g.edges.find? (keyU u v) with _ | e
      · rfl
      · exact absurd (hasEdgeU_iff_find?.mpr (by rw [ho]; rfl)) h
    simp only [linesGetU, edgeLinesU, List.find?_append]
    cases hfind : g.edges.find? (keyU a b) with
    | none =>
      by_cases hpair : SameU a b u v
      · have hk : keyU a b (u, v, [r]) = true := by
          rw [keyU_true_iff]
          rcases hpair with ⟨rfl, rfl⟩ | ⟨rfl, rfl⟩
          · exact Or.inl ⟨rfl, rfl⟩
          · exact Or.inr ⟨rfl, rfl⟩
        simp only [List.find?, hk, Option.or, Option.map_some', Option.getD_some,
          Option.map_none', Option.getD_none, List.not_mem_nil,
          List.mem_singleton, false_or]
        constructor
        · exact fun h2 => ⟨hpair, h2⟩
        · exact fun h2 => h2.2
      · have hk : keyU a b (u, v, [r]) = false := by
          rw [Bool.eq_false_iff, Ne, keyU_true_iff]
          rintro (⟨h1, h2⟩ | ⟨h1, h2⟩)
          · exact hpair (Or.inl ⟨h1.symm, h2.symm⟩)
          · exact hpair (Or.inr ⟨h2.symm, h1.symm⟩)
        simp only [List.find?, hk, Option.or, Option.map_none', Option.getD_none,
          List.not_mem_nil, false_iff, false_or]
        rintro ⟨hsame, rfl⟩
        exact hpair hsame
    | some e =>
      have hnp : ¬ SameU a b u v := by
        intro hsame
        rw [find?_ext _ _ (keyU_congr hsame), hnone] at hfind
        exact Option.noConfusion hfind
      simp only [Option.or, Option.map_some', Option.getD_some]
      constructor
      · exact Or.inl
      · rintro (hmem | ⟨hsame, rfl⟩)
        · exact hmem
        · exact absurd hsame hnp

/-! ## Build characterization (directed) -/

lemma mem_linesGetD_foldl_pairs (r : String) :
    ∀ (ps : List (String × String)) (g : DiGraph) {a b r' : String},
      r' ∈ linesGetD (ps.foldl (fun g p => addEdgeD g p.1 p.2 r) g) a b ↔
        r' ∈ linesGetD g a b ∨ ((a, b) ∈ ps ∧ r' = r) := by
  intro ps
  induction ps with
  | nil => intro g a b r'; simp
  | cons p ps ih =>
    intro g a b r'
    rw [List.foldl_cons, ih, mem_linesGetD_addEdgeD]
    constructor
    · rintro ((hmem | ⟨rfl, rfl, rfl⟩) | ⟨hmem, rfl⟩)
      · exact Or.inl hmem
      · exact Or.inr ⟨List.mem_cons_self _ _, rfl⟩
      · exact Or.inr ⟨List.mem_cons_of_mem _ hmem, rfl⟩
    · rintro (hmem | ⟨hmem, rfl⟩)
      · exact Or.inl (Or.inl hmem)
      · rcases List.mem_cons.mp hmem with rfl | hmem2
        · exact Or.inl (Or.inr ⟨rfl, rfl, rfl⟩)
        · exact Or.inr ⟨hmem2, rfl⟩

lemma edges_foldl_addNodeD (cd : ComplexesData) :
    ∀ (cids : List String) (g : DiGraph),
      (cids.foldl (fun g c => addNodeD g c (nodeAttrsFor cd c)) g).edges = g.edges := by
  intro cids
  induction cids with
  | nil => intro g; rfl
  | cons c cs ih =>
    intro g
    rw [List.foldl_cons, ih]
    unfold addNodeD
    split <;> rfl

lemma edges_addNodesD (cd : ComplexesData) (g : DiGraph) (cids : List String) :
    (addNodesD cd g cids).edges = g.edges :=
  edges_foldl_addNodeD cd cids g

lemma linesGetD_congr_edges {g g' : DiGraph} (h : g.edges = g'.edges)
    (a b : String) : linesGetD g a b = linesGetD g' a b := by
  unfold linesGetD edgeLinesD
  rw [h]

lemma mem_linesGetD_step {cd : ComplexesData} {t : GtfsTables} {g : DiGraph}
    {rd : String × Nat} {a b r' : String} :
    r' ∈ linesGetD (SubwayGraph.step cd t g rd) a b ↔
      r' ∈ linesGetD g a b ∨ emitsD cd t rd a b r' := by
  unfold SubwayGraph.step
  cases hs : SubwayGraph.seqFor cd t rd.1 rd.2 with
  | error e =>
    simp only [emitsD, hs]
    constructor
    · exact Or.inl
    · rintro (h | ⟨s, hseq, _⟩)
      · exact h
      · exact Except.noConfusion hseq
  | ok s =>
    rw [mem_linesGetD_foldl_pairs,
      linesGetD_congr_edges (edges_addNodesD cd g s) a b]
    simp only [emitsD, hs, Except.ok.injEq]
    constructor
    · rintro (h | ⟨hmem, rfl⟩)
      · exact Or.inl h
      · exact Or.inr ⟨s, rfl, rfl, hmem⟩
    · rintro (h | ⟨s2, rfl, rfl, hmem⟩)
      · exact Or.inl h
      · exact Or.inr ⟨hmem, rfl⟩

lemma mem_linesGetD_foldl_steps (cd : ComplexesData) (t : GtfsTables) :
    ∀ (l : List (String × Nat)) (g : DiGraph) {a b r' : String},
      r' ∈ linesGetD (l.foldl (SubwayGraph.step cd t) g) a b ↔
        r' ∈ linesGetD g a b ∨ ∃ rd ∈ l, emitsD cd t rd a b r' := by
  intro l
  induction l with
  | nil => intro g a b r'; simp
  | cons p ps ih =>
    intro g a b r'
    rw [List.foldl_cons, ih, mem_linesGetD_step, List.exists_mem_cons_iff]
    tauto

lemma mem_linesGetD_sortLinesD {g : DiGraph} {a b r' : String} :
    r' ∈ linesGetD (sortLinesD g) a b ↔ r' ∈ linesGetD g a b := by
  unfold sortLinesD linesGetD edgeLinesD
  dsimp only
  rw [find?_map_keyfix (keyD a b) (fun e => (e.1, e.2.1, sortStrings e.2.2))
    (fun e => rfl)]
  cases g.edges.find? (keyD a b) <;> simp [mem_sortStrings]

/-- Where every line label on every edge of the built directed snapshot
comes from: exactly the per-route emissions. -/
lemma mem_lines_build_subway {t : GtfsTables} {reg : List RegRow}
    {names : List (String × String)} {a b r' : String} :
    r' ∈ linesGetD (SubwayGraph.build_graph t reg names) a b ↔
      ∃ rd ∈ routeDirs t, emitsD (ComplexesData.build reg names) t rd a b r' := by
  unfold SubwayGraph.build_graph
  rw [mem_linesGetD_sortLinesD, mem_linesGetD_foldl_steps]
  simp [linesGetD, edgeLinesD, List.find?]

/-! ## Build characterization (undirected) -/

lemma mem_linesGetU_foldl_pairs (r : String) :
    ∀ (ps : List (String × String)) (g : UGraph) {a b r' : String},
      r' ∈ linesGetU (ps.foldl (fun g p => addEdgeU g p.1 p.2 r) g) a b ↔
        r' ∈ linesGetU g a b ∨ ((∃ p ∈ ps, SameU a b p.1 p.2) ∧ r' = r) := by
  intro ps
  induction ps with
  | nil => intro g a b r'; simp
  | cons p ps ih =>
    intro g a b r'
    rw [List.foldl_cons, ih, mem_linesGetU_addEdgeU, List.exists_mem_cons_iff]
    constructor
    · rintro ((hmem | ⟨hsame, rfl⟩) | ⟨⟨q, hq, hsq⟩, rfl⟩)
      · exact Or.inl hmem
      · exact Or.inr ⟨Or.inl hsame, rfl⟩
      · exact Or.inr ⟨Or.inr ⟨q, hq, hsq⟩, rfl⟩
    · rintro (hmem | ⟨hsame | ⟨q, hq, hsq⟩, rfl⟩)
      · exact Or.inl (Or.inl hmem)
      · exact Or.inl (Or.inr ⟨hsame, rfl⟩)
      · exact Or.inr ⟨⟨q, hq, hsq⟩, rfl⟩

lemma edges_foldl_addNodeU (cd : ComplexesData) :
    ∀ (cids : List String) (g : UGraph),
      (cids.foldl (fun g c => addNodeU g c (nodeAttrsFor cd c)) g).edges = g.edges := by
  intro cids
  induction cids with
  | nil => intro g; rfl
  | cons c cs ih =>
    intro g
    rw [List.foldl_cons, ih]
    unfold addNodeU
    split <;> rfl

lemma edges_addNodesU (cd : ComplexesData) (g : UGraph) (cids : List String) :
    (addNodesU cd g cids).edges = g.edges :=
  edges_foldl_addNodeU cd cids g

lemma linesGetU_congr_edges {g g' : UGraph} (h : g.edges = g'.edges)
    (a b : String) : linesGetU g a b = linesGetU g' a b := by
  unfold linesGetU edgeLinesU
  rw [h]

lemma exists_sameU_iff {a b : String} {ps : List (String × String)} :
    (∃ p ∈ ps, SameU a b p.1 p.2) ↔ (a, b) ∈ ps ∨ (b, a) ∈ ps := by
  constructor
  · rintro ⟨p, hp, ⟨rfl, rfl⟩ | ⟨rfl, rfl⟩⟩
    · exact Or.inl hp
    · exact Or.inr hp
  · rintro (h | h)
    · exact ⟨(a, b), h, Or.inl ⟨rfl, rfl⟩⟩
    · exact ⟨(b, a), h, Or.inr ⟨rfl, rfl⟩⟩

lemma mem_linesGetU_step {pb : Bool} {cd : ComplexesData} {t : GtfsTables}
    {g : UGraph} {rd : String × Nat} {a b r' : String} :
    r' ∈ linesGetU (MTAComplexGraph.step pb cd t g rd) a b ↔
      r' ∈ linesGetU g a b ∨ emitsU pb cd t rd a b r' := by
  unfold MTAComplexGraph.step
  cases hs : MTAComplexGraph.seqFor pb cd t rd.1 rd.2 with
  | error e =>
    simp only [emitsU, hs]
    constructor
    · exact Or.inl
    · rintro (h | ⟨s, hseq, _⟩)
      · exact h
      · exact Except.noConfusion hseq
  | ok s =>
    rw [mem_linesGetU_foldl_pairs,
      linesGetU_congr_edges (edges_addNodesU cd g s) a b, exists_sameU_iff]
    simp only [emitsU, hs, Except.ok.injEq]
    constructor
    · rintro (h | ⟨hmem, rfl⟩)
      · exact Or.inl h
      · exact Or.inr ⟨s, rfl, rfl, hmem⟩
    · rintro (h | ⟨s2, rfl, rfl, hmem⟩)
      · exact Or.inl h
      · exact Or.inr ⟨hmem, rfl⟩

lemma mem_linesGetU_foldl_steps (pb : Bool) (cd : ComplexesData) (t : GtfsTables) :
    ∀ (l : List (String × Nat)) (g : UGraph) {a b r' : String},
      r' ∈ linesGetU (l.foldl (MTAComplexGraph.step pb cd t) g) a b ↔
        r' ∈ linesGetU g a b ∨ ∃ rd ∈ l, emitsU pb cd t rd a b r' := by
  intro l
  induction l with
  | nil => intro g a b r'; simp
  | cons p ps ih =>
    intro g a b r'
    rw [List.foldl_cons, ih, mem_linesGetU_step, List.exists_mem_cons_iff]
    tauto

lemma mem_linesGetU_sortLinesU {g : UGraph} {a b r' : String} :
    r' ∈ linesGetU (sortLinesU g) a b ↔ r' ∈ linesGetU g a b := by
  unfold sortLinesU linesGetU edgeLinesU
  dsimp only
  rw [find?_map_keyfix (keyU a b) (fun e => (e.1, e.2.1, sortStrings e.2.2))
    (fun e => rfl)]
  cases g.edges.find? (keyU a b) <;> simp [mem_sortStrings]

/-- Where every line label on every edge of the built undirected snapshot
comes from: exactly the per-route emissions. -/
lemma mem_lines_build_mc {pb : Bool} {t : GtfsTables} {reg : List RegRow}
    {names : List (String × String)} {a b r' : String} :
    r' ∈ linesGetU (MTAComplexGraph.build_graph pb t reg names) a b ↔
      ∃ rd ∈ routeDirs t, emitsU pb (ComplexesData.build reg names) t rd a b r' := by
  unfold MTAComplexGraph.build_graph
  rw [mem_linesGetU_sortLinesU, mem_linesGetU_foldl_steps]
  simp [linesGetU, edgeLinesU, List.find?]

/-! ## Except-monad reduction helpers -/

lemma except_bind_ok {α β : Type} (a : α) (f : α → Except PyErr β) :
    (Except.ok a >>= f) = f a := rfl

lemma except_bind_error {α β : Type} (e : PyErr) (f : α → Except PyErr β) :
    ((Except.error e : Except PyErr α) >>= f) = .error e := rfl

lemma except_pure {α : Type} (a : α) : (pure a : Except PyErr α) = .ok a := rfl

lemma mapM_ok {β γ : Type} (f : β → γ) :
    ∀ l : List β,
      (l.mapM (fun x => (Except.ok (f x) : Except PyErr γ))) = .ok (l.map f) := by
  intro l
  induction l with
  | nil => rfl
  | cons x xs ih => rw [List.mapM_cons, ih]; rfl

/-! ## Breadth-first search soundness -/

lemma bfsAux_sound (nbrs : String → List String) (R : String → String → Prop)
    (hn : ∀ u v, v ∈ nbrs u → R u v) (a target : String) :
    ∀ (fuel : Nat) (frontier : List (String × List String))
      (visited : List String) (p : List String),
      (∀ e ∈ frontier, Relation.ReflTransGen R a e.1) →
      bfsAux nbrs target fuel frontier visited = some p →
      Relation.ReflTransGen R a target := by
  intro fuel
  induction fuel with
  | zero =>
    intro frontier visited p hinv heq
    cases frontier with
    | nil => exact absurd heq (by simp [bfsAux])
    | cons e rest => exact absurd heq (by simp [bfsAux])
  | succ n ih =>
    intro frontier visited p hinv heq
    cases frontier with
    | nil => exact absurd heq (by simp [bfsAux])
    | cons e rest =>
      obtain ⟨v, revp⟩ := e
      rw [bfsAux] at heq
      by_cases hv : (v == target) = true
      · have hvt : v = target := by simpa using hv
        exact hvt ▸ hinv (v, revp) (List.mem_cons_self _ _)
      · rw [if_neg hv] at heq
        refine ih _ _ p ?_ heq
        intro e2 he2
        rcases List.mem_append.mp he2 with h2 | h2
        · exact hinv _ (List.mem_cons_of_mem _ h2)
        · rcases List.mem_map.mp h2 with ⟨n2, hn2, rfl⟩
          have hn2m : n2 ∈ nbrs v := List.mem_of_mem_filter hn2
          exact (hinv (v, revp) (List.mem_cons_self _ _)).tail (hn v n2 hn2m)

lemma relD_of_mem_outNeighbors {g : DiGraph} {u v : String}
    (h : v ∈ outNeighbors g u) : RelD g u v := by
  unfold outNeighbors at h
  rcases List.mem_map.mp h with ⟨e, he, rfl⟩
  exact ⟨e, List.mem_of_mem_filter he, by simpa using List.of_mem_filter he, rfl⟩

lemma relU_of_mem_neighborsU {g : UGraph} {u v : String}
    (h : v ∈ neighborsU g u) : RelU g u v := by
  unfold neighborsU at h
  rcases List.mem_filterMap.mp h with ⟨e, he, hfe⟩
  by_cases h1 : (e.1 == u) = true
  · rw [if_pos h1] at hfe
    exact ⟨e, he, Or.inl ⟨by simpa using h1, by injection hfe⟩⟩
  · rw [if_neg h1] at hfe
    by_cases h2 : (e.2.1 == u) = true
    · rw [if_pos h2] at hfe
      exact ⟨e, he, Or.inr ⟨by injection hfe, by simpa using h2⟩⟩
    · rw [if_neg h2] at hfe
      exact Option.noConfusion hfe

lemma nxShortestPathD_noPath {g : DiGraph} {s t : String}
    (hs : s ∈ nodeIds g) (ht : t ∈ nodeIds g) (hr : ¬ ReachD g s t) :
    nxShortestPathD g s t = .error .noPath := by
  unfold nxShortestPathD
  have hcond : (!((nodeIds g).contains s) || !((nodeIds g).contains t)) = false := by
    simp [hs, ht]
  rw [hcond]
  simp only [Bool.false_eq_true, if_false]
  cases hbfs : bfsAux (outNeighbors g) t (g.nodes.length + 1) [(s, [s])] [s] with
  | some p =>
    refine absurd
      (bfsAux_sound (outNeighbors g) (RelD g)
        (fun u v hv => relD_of_mem_outNeighbors hv) s t _ _ _ p ?_ hbfs) hr
    intro e he
    have he2 := List.mem_singleton.mp he
    subst he2
    exact Relation.ReflTransGen.refl
  | none => rfl

lemma nxShortestPathU_noPath {g : UGraph} {s t : String}
    (hs : s ∈ nodeIdsU g) (ht : t ∈ nodeIdsU g) (hr : ¬ ReachU g s t) :
    nxShortestPathU g s t = .error .noPath := by
  unfold nxShortestPathU
  have hcond : (!((nodeIdsU g).contains s) || !((nodeIdsU g).contains t)) = false := by
    simp [hs, ht]
  rw [hcond]
  simp only [Bool.false_eq_true, if_false]
  cases hbfs : bfsAux (neighborsU g) t (g.nodes.length + 1) [(s, [s])] [s] with
  | some p =>
    refine absurd
      (bfsAux_sound (neighborsU g) (RelU g)
        (fun u v hv => relU_of_mem_neighborsU hv) s t _ _ _ p ?_ hbfs) hr
    intro e he
    have he2 := List.mem_singleton.mp he
    subst he2
    exact Relation.ReflTransGen.refl
  | none => rfl

lemma nxAllShortestPathsD_noPath {g : DiGraph} {s t : String}
    (hs : s ∈ nodeIds g) (hr : ¬ ReachD g s t) :
    nxAllShortestPathsD g s t = .error .noPath := by
  unfold nxAllShortestPathsD
  have hcond : (!((nodeIds g).contains s)) = false := by simp [hs]
  rw [hcond]
  simp only [Bool.false_eq_true, if_false]
  cases hbfs : bfsAux (outNeighbors g) t (g.nodes.length + 1) [(s, [s])] [s] with
  | some p =>
    refine absurd
      (bfsAux_sound (outNeighbors g) (RelD g)
        (fun u v hv => relD_of_mem_outNeighbors hv) s t _ _ _ p ?_ hbfs) hr
    intro e he
    have he2 := List.mem_singleton.mp he
    subst he2
    exact Relation.ReflTransGen.refl
  | none => rfl

lemma not_reachD_of_not_node {g : DiGraph} (hwf : WFD g) {s t : String}
    (hst : s ≠ t) (ht : t ∉ nodeIds g) : ¬ ReachD g s t := by
  intro h
  rcases Relation.ReflTransGen.cases_tail h with rfl | ⟨c, _, hcb⟩
  · exact hst rfl
  · obtain ⟨e, he, _, he2⟩ := hcb
    exact ht (he2 ▸ (hwf e he).2)

/-! ## Nodup for the MTAComplexGraph sequencer -/

lemma nodup_append_singleton {acc : List String} {cid : String}
    (h1 : acc.Nodup) (h2 : cid ∉ acc) : (acc ++ [cid]).Nodup := by
  rw [List.nodup_append]
  exact ⟨h1, List.nodup_singleton cid, by simpa using h2⟩

lemma mc_resolve_fold_nodup (cd : ComplexesData) :
    ∀ (l : List String) (acc out : List String), acc.Nodup →
      (l.foldlM
        (fun acc s => do
          let c ← get_complex_id_by_gtfs_stop_id cd s
          match c with
          | some cid =>
            pure (if !(strEmpty cid) && !(acc.contains cid) then acc ++ [cid] else acc)
          | none => pure acc)
        acc : Except PyErr (List String)) = .ok out → out.Nodup := by
  intro l
  induction l with
  | nil =>
    intro acc out hacc heq
    rw [List.foldlM_nil] at heq
    cases heq
    exact hacc
  | cons s l ih =>
    intro acc out hacc heq
    rw [List.foldlM_cons] at heq
    cases hres : get_complex_id_by_gtfs_stop_id cd s with
    | error e =>
      simp only [hres, except_bind_error] at heq
      exact Except.noConfusion heq
    | ok c =>
      simp only [hres, except_bind_ok] at heq
      cases c with
      | none =>
        simp only [except_pure, except_bind_ok] at heq
        exact ih acc out hacc heq
      | some cid =>
        simp only [except_pure, except_bind_ok] at heq
        by_cases hguard : (!(strEmpty cid) && !(acc.contains cid)) = true
        · rw [if_pos hguard] at heq
          refine ih _ out ?_ heq
          refine nodup_append_singleton hacc ?_
          have := (Bool.and_eq_true _ _).mp hguard
          simpa using this.2
        · rw [if_neg hguard] at heq
          exact ih acc out hacc heq

/-! ## Remaining support lemmas -/

lemma hasEdgeD_of_mem_linesGetD {g : DiGraph} {a b r' : String}
    (h : r' ∈ linesGetD g a b) : hasEdgeD g a b = true := by
  unfold linesGetD at h
  unfold hasEdgeD
  cases ho : edgeLinesD g a b with
  | none => rw [ho] at h; simp at h
  | some ls => rfl

/-! ## Claim C1 -/

/-- C1: building twice from identical sources is claimed to yield identical
snapshots.  `SubwayGraph.build_graph` is a pure function of the tables, but
`MTAComplexGraph.ordered_stops` calls `_assert_built`, so on a fresh class
(no previous build, `prevBuilt = false`) every route of the first
`MTAComplexGraph.build_graph` fails and the first build is empty, while the
immediately repeated build (`prevBuilt = true`) produces the full graph:
the first and second snapshots differ. -/
theorem C1_mta_first_build_not_idempotent :
    MTAComplexGraph.build_graph false T1 R1 S1 ≠
      MTAComplexGraph.build_graph true T1 R1 S1 ∧
    (MTAComplexGraph.build_graph false T1 R1 S1).nodes = [] ∧
    (MTAComplexGraph.build_graph false T1 R1 S1).edges = [] ∧
    (MTAComplexGraph.build_graph true T1 R1 S1).edges = [("1", "2", ["R"])] :=
  ⟨by decide, rfl, rfl, rfl⟩

/-! ## Claim C3 -/

/-- C3 counterexample: the claim says consecutive repeats of a complex are
collapsed and no edge ever connects a complex to itself; but
`SubwayGraph.build_graph` performs no collapsing, so a trip whose two
consecutive raw stops resolve to the same complex `C` produces the
self-edge `(C, C)`. -/
theorem C3_counterexample_self_edge :
    hasEdgeD (SubwayGraph.build_graph TSelf RSelf SSelf) "C" "C" = true := rfl

/-- C3 (amended): `MTAComplexGraph.ordered_stops` removes every duplicate
complex globally (each complex id appears at most once per successful
`(route, direction)` sequence), while `SubwayGraph.build_graph` performs no
collapsing at all, so whenever a complex occurs twice in a processed
sequence the directed snapshot contains a self-edge on it. -/
theorem C3_sequencing_behaviour :
    (∀ (built : Bool) (cd : ComplexesData) (t : GtfsTables) (r : String)
        (d : Nat) (l : List String),
        MTAComplexGraph.ordered_stops built cd t r d = .ok l → l.Nodup) ∧
    (∀ (t : GtfsTables) (reg : List RegRow) (names : List (String × String))
        (rd : String × Nat) (s : List String) (c : String),
        rd ∈ routeDirs t →
        SubwayGraph.seqFor (ComplexesData.build reg names) t rd.1 rd.2 = .ok s →
        (c, c) ∈ allPairs s →
        hasEdgeD (SubwayGraph.build_graph t reg names) c c = true) := by
  constructor
  · intro built cd t r d l heq
    unfold MTAComplexGraph.ordered_stops at heq
    by_cases hb : (!built) = true
    · rw [if_pos hb] at heq
      exact Except.noConfusion heq
    · rw [if_neg hb] at heq
      cases hh : (tripsFor t r d).head? with
      | none =>
        rw [hh] at heq
        exact Except.noConfusion heq
      | some tr =>
        rw [hh] at heq
        exact mc_resolve_fold_nodup cd _ [] l List.nodup_nil heq
  · intro t reg names rd s c hrd hseq hmem
    exact hasEdgeD_of_mem_linesGetD
      (mem_lines_build_subway.mpr ⟨rd, hrd, s, hseq, rfl, hmem⟩)

/-- Witness instantiating `C3_sequencing_behaviour` at concrete inputs. -/
theorem C3_sequencing_behaviour_witness :
    (["1", "2"] : List String).Nodup ∧
    hasEdgeD (SubwayGraph.build_graph TSelf RSelf SSelf) "C" "C" = true :=
  ⟨C3_sequencing_behaviour.1 true (ComplexesData.build R1 S1) T1 "R" 0
      ["1", "2"] rfl,
    C3_sequencing_behaviour.2 TSelf RSelf SSelf ("R", 0) ["C", "C"] "C"
      (by decide) rfl (by decide)⟩

/-! ## Claim C4 -/

/-- C4 counterexample: for a route outside the `{A, 4}` override set with no
trip in the trips table, `SubwayGraph.ordered_stops` raises `IndexError`
(`.iloc[0]` on an empty selection) instead of returning an empty sequence. -/
theorem C4_counterexample_iloc_raises :
    SubwayGraph.ordered_stops T1 "B" 0 = .error .indexError := rfl

/-- C4 (amended): with no trip for `(route, direction)`, the override routes
`A` and `4` return the empty sequence, but every other route raises
`IndexError` (caught and skipped by the builders), and
`MTAComplexGraph.ordered_stops` raises `IndexError` likewise. -/
theorem C4_no_trip_behaviour (t : GtfsTables) (r : String) (d : Nat)
    (htrips : tripsFor t r d = []) :
    ((r = "A" ∨ r = "4") → SubwayGraph.ordered_stops t r d = .ok []) ∧
    (r ≠ "A" → r ≠ "4" → SubwayGraph.ordered_stops t r d = .error .indexError) ∧
    (∀ cd : ComplexesData,
      MTAComplexGraph.ordered_stops true cd t r d = .error .indexError) := by
  refine ⟨?_, ?_, ?_⟩
  · intro hr
    unfold SubwayGraph.ordered_stops
    have hcond : (r == "A" || r == "4") = true := by
      rcases hr with rfl | rfl <;> rfl
    rw [hcond, if_pos rfl]
    have hst : t.stop_times.filter
        (fun s2 => ((tripsFor t r d).map (·.trip_id)).contains s2.trip_id) = [] := by
      rw [htrips]
      exact List.filter_eq_nil_iff.mpr (fun a _ => by simp)
    simp only [hst]
    rfl
  · intro hrA hr4
    unfold SubwayGraph.ordered_stops
    have hcond : (r == "A" || r == "4") = false := by
      simp [hrA, hr4]
    rw [hcond]
    simp only [Bool.false_eq_true, if_false]
    rw [htrips]
    rfl
  · intro cd
    unfold MTAComplexGraph.ordered_stops
    rw [htrips]
    rfl

/-- Witness instantiating `C4_no_trip_behaviour` at concrete inputs. -/
theorem C4_no_trip_behaviour_witness :
    SubwayGraph.ordered_stops T1 "A" 0 = .ok [] ∧
    SubwayGraph.ordered_stops T1 "B" 1 = .error .indexError ∧
    MTAComplexGraph.ordered_stops true cd9 T1 "B" 1 = .error .indexError :=
  ⟨(C4_no_trip_behaviour T1 "A" 0 rfl).1 (Or.inl rfl),
    (C4_no_trip_behaviour T1 "B" 1 rfl).2.1 (by decide) (by decide),
    (C4_no_trip_behaviour T1 "B" 1 rfl).2.2 cd9⟩

/-! ## Claim C5 -/

/-- C5: the resolver tries an exact match (with Python truthiness), then a
suffix-stripped retry when the id ends in `N`/`S`, else a retry with `N`
appended; consequently when only `"A34N"` is registered, resolving
`"A34"`, `"A34N"` and `"A34S"` all yield the registered complex id. -/
theorem C5_resolver_suffix_normalization :
    (∀ (c : String) (n : Nat) (names : List (String × String)),
      get_complex_id_by_gtfs_stop_id (ComplexesData.build [⟨c, n, "A34N"⟩] names)
          "A34" = .ok (some c) ∧
      get_complex_id_by_gtfs_stop_id (ComplexesData.build [⟨c, n, "A34N"⟩] names)
          "A34N" = .ok (some c) ∧
      get_complex_id_by_gtfs_stop_id (ComplexesData.build [⟨c, n, "A34N"⟩] names)
          "A34S" = .ok (some c)) ∧
    (∀ (m : List (String × String)) (s : String),
      truthyS (dget m s) = true → resolveMap m s = .ok (dget m s)) ∧
    (∀ (m : List (String × String)) (s : String),
      truthyS (dget m s) = false → strEmpty s = false →
      isDirSuffix (lastCh s) = true →
      resolveMap m s = .ok (dget m (dropLastStr s))) ∧
    (∀ (m : List (String × String)) (s : String),
      truthyS (dget m s) = false → strEmpty s = false →
      isDirSuffix (lastCh s) = false →
      resolveMap m s = .ok (dget m (s ++ "N"))) := by
  refine ⟨?_, ?_, ?_, ?_⟩
  · intro c n names
    have hmap : (ComplexesData.build [⟨c, n, "A34N"⟩] names).complex_id_by_gtfs
        = [("A34N", c), ("A34", c)] := rfl
    unfold get_complex_id_by_gtfs_stop_id
    rw [hmap]
    have hA34 : dget [("A34N", c), ("A34", c)] "A34" = some c := rfl
    have hA34N : dget [("A34N", c), ("A34", c)] "A34N" = some c := rfl
    have hA34S : dget [("A34N", c), ("A34", c)] "A34S" = none := rfl
    have l1 : isDirSuffix (lastCh "A34") = false := rfl
    have l2 : isDirSuffix (lastCh "A34N") = true := rfl
    have l3 : isDirSuffix (lastCh "A34S") = true := rfl
    have l4 : dropLastStr "A34N" = "A34" := rfl
    have l5 : dropLastStr "A34S" = "A34" := rfl
    have l6 : strEmpty "A34" = false := rfl
    have l7 : strEmpty "A34N" = false := rfl
    have l8 : strEmpty "A34S" = false := rfl
    have l9 : ("A34" ++ "N" : String) = "A34N" := rfl
    by_cases hc : strEmpty c = true
    · refine ⟨?_, ?_, ?_⟩ <;>
        simp [resolveMap, hA34, hA34N, hA34S, l1, l2, l3, l4, l5, l6, l7, l8,
          l9, truthyS, hc]
    · refine ⟨?_, ?_, ?_⟩ <;>
        simp [resolveMap, hA34, hA34N, hA34S, l1, l2, l3, l4, l5, l6, l7, l8,
          l9, truthyS, hc]
  · intro m s ht
    unfold resolveMap
    rw [if_pos ht]
  · intro m s ht he hd
    unfold resolveMap
    rw [if_neg (by rw [ht]; exact Bool.false_ne_true), if_neg (by rw [he]; exact Bool.false_ne_true), if_pos hd]
  · intro m s ht he hd
    unfold resolveMap
    rw [if_neg (by rw [ht]; exact Bool.false_ne_true), if_neg (by rw [he]; exact Bool.false_ne_true), if_neg (by rw [hd]; exact Bool.false_ne_true)]

/-- Witness instantiating `C5_resolver_suffix_normalization` concretely. -/
theorem C5_resolver_suffix_normalization_witness :
    get_complex_id_by_gtfs_stop_id (ComplexesData.build [⟨"618", 1, "A34N"⟩] [])
        "A34" = .ok (some "618") ∧
    get_complex_id_by_gtfs_stop_id (ComplexesData.build [⟨"618", 1, "A34N"⟩] [])
        "A34N" = .ok (some "618") ∧
    get_complex_id_by_gtfs_stop_id (ComplexesData.build [⟨"618", 1, "A34N"⟩] [])
        "A34S" = .ok (some "618") :=
  C5_resolver_suffix_normalization.1 "618" 1 []

/-! ## Claim C10 -/

lemma strEmpty_eq_true_iff {s : String} : strEmpty s = true ↔ s = "" := by
  constructor
  · intro h
    obtain ⟨data⟩ := s
    cases data with
    | nil => rfl
    | cons a l => exact Bool.noConfusion h
  · rintro rfl
    rfl

lemma mem_dinsert {α : Type} {m : List (String × α)} {k : String} {v : α}
    {p : String × α} (h : p ∈ dinsert m k v) : p ∈ m ∨ p = (k, v) := by
  unfold dinsert at h
  rcases List.mem_append.mp h with h | h
  · exact Or.inl (List.mem_of_mem_filter h)
  · exact Or.inr (List.mem_singleton.mp h)

lemma parseGtfsList_ne_empty {s g : String} (h : g ∈ parseGtfsList s) :
    g ≠ "" := by
  have hf := List.of_mem_filter h
  intro heq
  rw [heq] at hf
  exact Bool.noConfusion hf

lemma dropLastStr_ne_empty {g : String} (hN : g ≠ "N") (hS : g ≠ "S")
    (hsuf : isDirSuffix (lastCh g) = true) : dropLastStr g ≠ "" := by
  obtain ⟨data⟩ := g
  cases data with
  | nil => exact Bool.noConfusion hsuf
  | cons ch rest =>
    cases rest with
    | nil =>
      have hch : ch = 'N' ∨ ch = 'S' := by
        simpa [isDirSuffix, lastCh] using hsuf
      rcases hch with rfl | rfl
      · exact absurd rfl hN
      · exact absurd rfl hS
    | cons ch2 rest2 =>
      intro he
      have hdata := congrArg String.data he
      rw [show ("" : String).data = [] from rfl] at hdata
      simp [dropLastStr, List.dropLast] at hdata

lemma keys_ne_insertGtfs {m : List (String × String)} {gtfs cid : String}
    (hm : ∀ p ∈ m, p.1 ≠ "") (hg : gtfs ≠ "") (hN : gtfs ≠ "N")
    (hS : gtfs ≠ "S") : ∀ p ∈ insertGtfs m gtfs cid, p.1 ≠ "" := by
  intro p hp
  unfold insertGtfs at hp
  by_cases hsuf : isDirSuffix (lastCh gtfs) = true
  · rw [if_pos hsuf] at hp
    rcases mem_dinsert hp with hp2 | rfl
    · rcases mem_dinsert hp2 with hp3 | rfl
      · exact hm p hp3
      · exact hg
    · exact dropLastStr_ne_empty hN hS hsuf
  · rw [if_neg hsuf] at hp
    rcases mem_dinsert hp with hp2 | rfl
    · exact hm p hp2
    · exact hg

lemma keys_ne_inner :
    ∀ (lst : List String) (m : List (String × String)) (cid : String),
      (∀ g ∈ lst, g ≠ "" ∧ g ≠ "N" ∧ g ≠ "S") →
      (∀ p ∈ m, p.1 ≠ "") →
      ∀ p ∈ lst.foldl (fun m g => insertGtfs m g cid) m, p.1 ≠ "" := by
  intro lst
  induction lst with
  | nil => intro m cid _ hm; exact hm
  | cons g gs ih =>
    intro m cid hlst hm
    rw [List.foldl_cons]
    refine ih _ cid (fun g2 hg2 => hlst g2 (List.mem_cons_of_mem _ hg2)) ?_
    obtain ⟨hg, hN, hS⟩ := hlst g (List.mem_cons_self _ _)
    exact keys_ne_insertGtfs hm hg hN hS

lemma keys_ne_rows :
    ∀ (rows : List RegRow) (cd : ComplexesData),
      (∀ row ∈ rows, ∀ g ∈ parseGtfsList row.gtfsStopIds, g ≠ "N" ∧ g ≠ "S") →
      (∀ p ∈ cd.complex_id_by_gtfs, p.1 ≠ "") →
      ∀ p ∈ (rows.foldl
          (fun cd row =>
            let lst := parseGtfsList row.gtfsStopIds
            { cd with
              complex_info :=
                dinsert cd.complex_info row.complexId (row.numStations, lst)
              complex_id_by_gtfs :=
                lst.foldl (fun m g => insertGtfs m g row.complexId)
                  cd.complex_id_by_gtfs })
          cd).complex_id_by_gtfs, p.1 ≠ "" := by
  intro rows
  induction rows with
  | nil => intro cd _ hm; exact hm
  | cons row rest ih =>
    intro cd hrows hm
    rw [List.foldl_cons]
    refine ih _ (fun r2 hr2 => hrows r2 (List.mem_cons_of_mem _ hr2)) ?_
    refine keys_ne_inner _ _ _ ?_ hm
    intro g hg
    obtain ⟨hN, hS⟩ := hrows row (List.mem_cons_self _ _) g hg
    exact ⟨parseGtfsList_ne_empty hg, hN, hS⟩

lemma keys_ne_build (reg : List RegRow) (names : List (String × String))
    (h : ∀ row ∈ reg, ∀ g ∈ parseGtfsList row.gtfsStopIds, g ≠ "N" ∧ g ≠ "S") :
    ∀ p ∈ (ComplexesData.build reg names).complex_id_by_gtfs, p.1 ≠ "" := by
  unfold ComplexesData.build
  exact keys_ne_rows reg _ h (by intro p hp; simp at hp)

lemma resolveMap_ok_of_ne_empty (m : List (String × String)) (s : String)
    (hs : s ≠ "") : ∃ o, resolveMap m s = .ok o := by
  unfold resolveMap
  by_cases ht : truthyS (dget m s) = true
  · rw [if_pos ht]
    exact ⟨_, rfl⟩
  · rw [if_neg ht]
    have he : ¬ strEmpty s = true := fun h2 => hs (strEmpty_eq_true_iff.mp h2)
    rw [if_neg he]
    by_cases hd : isDirSuffix (lastCh s) = true
    · rw [if_pos hd]
      exact ⟨_, rfl⟩
    · rw [if_neg hd]
      exact ⟨_, rfl⟩

/-- C10: when no registry row lists a bare `"N"` or `"S"` member (whose
suffix-stripped registration would be the empty string), the resolver on
the empty-string input reaches `s[-1]` and raises `IndexError` instead of
returning a not-found value, while on every non-empty input it terminates
without raising, returning a complex id or `None`. -/
theorem C10_resolver_empty_input (reg : List RegRow)
    (names : List (String × String))
    (h : ∀ row ∈ reg, ∀ g ∈ parseGtfsList row.gtfsStopIds, g ≠ "N" ∧ g ≠ "S") :
    get_complex_id_by_gtfs_stop_id (ComplexesData.build reg names) "" =
      .error .indexError ∧
    ∀ s : String, s ≠ "" →
      ∃ o : Option String,
        get_complex_id_by_gtfs_stop_id (ComplexesData.build reg names) s =
          .ok o := by
  constructor
  · have hdget :
        dget (ComplexesData.build reg names).complex_id_by_gtfs "" = none := by
      unfold dget
      cases hf : (ComplexesData.build reg names).complex_id_by_gtfs.find?
          (fun p => p.1 == "") with
      | none => rfl
      | some p =>
        exact absurd (by simpa using List.find?_some hf)
          (keys_ne_build reg names h p (List.mem_of_find?_eq_some hf))
    unfold get_complex_id_by_gtfs_stop_id resolveMap
    rw [hdget]
    rfl
  · intro s hs
    exact resolveMap_ok_of_ne_empty _ s hs

/-- Witness instantiating `C10_resolver_empty_input` at a concrete registry. -/
theorem C10_resolver_empty_input_witness :
    get_complex_id_by_gtfs_stop_id (ComplexesData.build R1 S1) "" =
      .error .indexError ∧
    ∃ o : Option String,
      get_complex_id_by_gtfs_stop_id (ComplexesData.build R1 S1) "zz" = .ok o :=
  ⟨(C10_resolver_empty_input R1 S1 (by decide)).1,
    (C10_resolver_empty_input R1 S1 (by decide)).2 "zz" (by decide)⟩

/-! ## Claim C6 -/

/-- C6 counterexample: `"R"` labels the self-edge `(C, C)` of the directed
build although no deduplicated (run-collapsed) sequence has `C` strictly
before `C`, so the claimed iff with the deduplicated sequence fails at
`a = b = C`. -/
theorem C6_counterexample_self_pair :
    "R" ∈ linesGetD (SubwayGraph.build_graph TSelf RSelf SSelf) "C" "C" ∧
    ¬ (∃ rd ∈ routeDirs TSelf, ∃ s,
        SubwayGraph.seqFor (ComplexesData.build RSelf SSelf) TSelf rd.1 rd.2 =
          .ok s ∧
        "R" = rd.1 ∧ ("C", "C") ∈ allPairs (collapseRuns s)) := by
  constructor
  · decide
  · rintro ⟨rd, hrd, s, hs, hr, hmem⟩
    have hrd2 : rd = ("R", 0) ∨ rd = ("R", 1) := by
      have e : routeDirs TSelf = [("R", 0), ("R", 1)] := rfl
      rw [e] at hrd
      simpa using hrd
    rcases hrd2 with rfl | rfl
    · rw [show SubwayGraph.seqFor (ComplexesData.build RSelf SSelf) TSelf
          ("R", 0).1 ("R", 0).2 = .ok ["C", "C"] from rfl] at hs
      cases hs
      revert hmem
      decide
    · rw [show SubwayGraph.seqFor (ComplexesData.build RSelf SSelf) TSelf
          ("R", 1).1 ("R", 1).2 = .error .indexError from rfl] at hs
      exact Except.noConfusion hs

/-- C6 (amended): a route is on an edge of a built snapshot iff some
successfully processed `(route, direction)` sequence emits it — with the
two complexes in order in the *uncollapsed* resolved sequence under policy
B (directed all-pairs), or adjacent (in either orientation) in the
processed sequence under policy A (undirected) — never inferred
transitively; and the claim's reachability-soundness direction holds as
stated: order in the deduplicated (run-collapsed) sequence still yields
the edge and its label. -/
theorem C6_edge_label_soundness (t : GtfsTables) (reg : List RegRow)
    (names : List (String × String)) (pb : Bool) (a b r : String) :
    (r ∈ linesGetD (SubwayGraph.build_graph t reg names) a b ↔
      ∃ rd ∈ routeDirs t, ∃ s,
        SubwayGraph.seqFor (ComplexesData.build reg names) t rd.1 rd.2 = .ok s ∧
        r = rd.1 ∧ (a, b) ∈ allPairs s) ∧
    (r ∈ linesGetU (MTAComplexGraph.build_graph pb t reg names) a b ↔
      ∃ rd ∈ routeDirs t, ∃ s,
        MTAComplexGraph.seqFor pb (ComplexesData.build reg names) t rd.1 rd.2 =
          .ok s ∧
        r = rd.1 ∧ ((a, b) ∈ consecPairs s ∨ (b, a) ∈ consecPairs s)) ∧
    ((∃ rd ∈ routeDirs t, ∃ s,
        SubwayGraph.seqFor (ComplexesData.build reg names) t rd.1 rd.2 = .ok s ∧
        r = rd.1 ∧ (a, b) ∈ allPairs (collapseRuns s)) →
      r ∈ linesGetD (SubwayGraph.build_graph t reg names) a b ∧
      hasEdgeD (SubwayGraph.build_graph t reg names) a b = true) := by
  refine ⟨mem_lines_build_subway, mem_lines_build_mc, ?_⟩
  rintro ⟨rd, hrd, s, hs, hr, hmem⟩
  have hmem2 : (a, b) ∈ allPairs s :=
    mem_allPairs.mpr ((mem_allPairs.mp hmem).trans (collapseRuns_sublist s))
  have hlab : r ∈ linesGetD (SubwayGraph.build_graph t reg names) a b :=
    mem_lines_build_subway.mpr ⟨rd, hrd, s, hs, hr, hmem2⟩
  exact ⟨hlab, hasEdgeD_of_mem_linesGetD hlab⟩

/-- Witness instantiating `C6_edge_label_soundness` at a concrete build. -/
theorem C6_edge_label_soundness_witness :
    "R" ∈ linesGetD (SubwayGraph.build_graph T1 R1 S1) "1" "2" ∧
    hasEdgeD (SubwayGraph.build_graph T1 R1 S1) "1" "2" = true :=
  (C6_edge_label_soundness T1 R1 S1 true "1" "2" "R").2.2
    ⟨("R", 0), by decide, ["1", "2"], rfl, rfl, by decide⟩

/-! ## Claim C7 -/

/-- C7: for two complexes that are both nodes of a built snapshot but not
joined by any path, `SubwayGraph.shortest_path` returns `None` and
`all_shortest_paths` returns `[]` (the `NetworkXNoPath` raised inside is
caught), and `MTAComplexGraph.shortest_path` returns `([], [])`; none of
them propagates an exception. -/
theorem C7_disconnected_not_found (g : DiGraph) (cd : ComplexesData)
    (h : UGraph) (cd2 : ComplexesData) (a b x y : String)
    (ha : a ∈ nodeIds g) (hb : b ∈ nodeIds g) (hr : ¬ ReachD g a b)
    (hx : x ∈ nodeIdsU h) (hy : y ∈ nodeIdsU h) (hru : ¬ ReachU h x y) :
    SubwayGraph.shortest_path (some (g, cd)) a b = .ok none ∧
    SubwayGraph.all_shortest_paths (some (g, cd)) a b = .ok [] ∧
    MTAComplexGraph.shortest_path (some (h, cd2)) x y = .ok ([], []) := by
  refine ⟨?_, ?_, ?_⟩
  · have h1 := nxShortestPathD_noPath ha hb hr
    simp [SubwayGraph.shortest_path, h1]
  · have h1 := nxAllShortestPathsD_noPath ha hr
    simp [SubwayGraph.all_shortest_paths, h1]
  · have h1 := nxShortestPathU_noPath hx hy hru
    simp [MTAComplexGraph.shortest_path, h1]

/-- Witness instantiating `C7_disconnected_not_found` on two-node
edge-free snapshots. -/
theorem C7_disconnected_not_found_witness :
    SubwayGraph.shortest_path (some (gDisc, cd9)) "n1" "n2" = .ok none ∧
    SubwayGraph.all_shortest_paths (some (gDisc, cd9)) "n1" "n2" = .ok [] ∧
    MTAComplexGraph.shortest_path (some (gDiscU, cd9)) "m1" "m2" =
      .ok ([], []) := by
  refine C7_disconnected_not_found gDisc cd9 gDiscU cd9 "n1" "n2" "m1" "m2"
    (by decide) (by decide) ?_ (by decide) (by decide) ?_
  · intro hreach
    rcases Relation.ReflTransGen.cases_head hreach with heq | ⟨c, hstep, _⟩
    · exact absurd heq (by decide)
    · obtain ⟨e, he, _⟩ := hstep
      rw [show gDisc.edges = [] from rfl] at he
      exact List.not_mem_nil e he
  · intro hreach
    rcases Relation.ReflTransGen.cases_head hreach with heq | ⟨c, hstep, _⟩
    · exact absurd heq (by decide)
    · obtain ⟨e, he, _⟩ := hstep
      rw [show gDiscU.edges = [] from rfl] at he
      exact List.not_mem_nil e he

/-! ## Claim C2 -/

lemma linesGetD_eq_nil_left {g : DiGraph} (hwf : WFD g) {x y : String}
    (hx : x ∉ nodeIds g) : linesGetD g x y = [] := by
  unfold linesGetD edgeLinesD
  cases hf : g.edges.find? (keyD x y) with
  | none => rfl
  | some e =>
    have hk := keyD_true_iff.mp (List.find?_some hf)
    have hm := (hwf e (List.mem_of_find?_eq_some hf)).1
    rw [hk.1] at hm
    exact absurd hm hx

lemma linesGetD_eq_nil_right {g : DiGraph} (hwf : WFD g) {x y : String}
    (hx : x ∉ nodeIds g) : linesGetD g y x = [] := by
  unfold linesGetD edgeLinesD
  cases hf : g.edges.find? (keyD y x) with
  | none => rfl
  | some e =>
    have hk := keyD_true_iff.mp (List.find?_some hf)
    have hm := (hwf e (List.mem_of_find?_eq_some hf)).2
    rw [hk.2] at hm
    exact absurd hm hx

/-- C2 counterexample: on a built snapshot, a query with an identifier that
is not a node *raises* (`NetworkXError` from `G.successors`, uncaught
`NodeNotFound` from `nx.shortest_path`), contradicting "returns an explicit
not-found value and never raises an exception". -/
theorem C2_counterexample_unknown_id_raises :
    SubwayGraph.successors (some (gBuilt, cdBuilt)) "zz" =
      .error .networkXError ∧
    SubwayGraph.shortest_path (some (gBuilt, cdBuilt)) "zz" "1" =
      .error .nodeNotFound := ⟨rfl, rfl⟩

/-- C2 (amended): `connecting_lines`, `lines_at_complex_id`,
`complex_id_to_name` and `stop_name_to_complex_id` do return explicit
not-found values; but `successors` raises `NetworkXError`,
`shortest_path` raises `NodeNotFound` when either endpoint is unknown,
`all_shortest_paths` raises `NodeNotFound` when the source is unknown
(returning `[]` only when just the target is unknown), and
`MTAComplexGraph.shortest_path` raises `NodeNotFound` for unknown
endpoints. -/
theorem C2_unknown_identifier_behaviour (g : DiGraph) (cd : ComplexesData)
    (h : UGraph) (cd2 : ComplexesData) (x y nm : String)
    (hwf : WFD g) (hx : x ∉ nodeIds g) :
    SubwayGraph.successors (some (g, cd)) x = .error .networkXError ∧
    SubwayGraph.shortest_path (some (g, cd)) x y = .error .nodeNotFound ∧
    SubwayGraph.shortest_path (some (g, cd)) y x = .error .nodeNotFound ∧
    SubwayGraph.all_shortest_paths (some (g, cd)) x y = .error .nodeNotFound ∧
    (y ∈ nodeIds g → y ≠ x →
      SubwayGraph.all_shortest_paths (some (g, cd)) y x = .ok []) ∧
    SubwayGraph.connecting_lines (some (g, cd)) x y = .ok [] ∧
    SubwayGraph.connecting_lines (some (g, cd)) y x = .ok [] ∧
    SubwayGraph.lines_at_complex_id (some (g, cd)) x = .ok [] ∧
    SubwayGraph.complex_id_to_name (some (g, cd)) x = .ok none ∧
    ((∀ q ∈ g.nodes, q.2.stop_name ≠ nm) →
      SubwayGraph.stop_name_to_complex_id (some (g, cd)) nm = .ok none) ∧
    (x ∉ nodeIdsU h →
      MTAComplexGraph.shortest_path (some (h, cd2)) x y =
        .error .nodeNotFound) := by
  refine ⟨?_, ?_, ?_, ?_, ?_, ?_, ?_, ?_, ?_, ?_, ?_⟩
  · simp [SubwayGraph.successors, hx]
  · simp [SubwayGraph.shortest_path, nxShortestPathD, hx]
  · simp [SubwayGraph.shortest_path, nxShortestPathD, hx]
  · simp [SubwayGraph.all_shortest_paths, nxAllShortestPathsD, hx]
  · intro hy hne
    have h1 := nxAllShortestPathsD_noPath hy (not_reachD_of_not_node hwf hne hx)
    simp [SubwayGraph.all_shortest_paths, h1]
  · simp [SubwayGraph.connecting_lines, linesGetD_eq_nil_left hwf hx]
  · simp [SubwayGraph.connecting_lines, linesGetD_eq_nil_right hwf hx]
  · simp [SubwayGraph.lines_at_complex_id, hx]
  · have hfind : g.nodes.find? (fun p => p.1 == x) = none := by
      cases hf : g.nodes.find? (fun p => p.1 == x) with
      | none => rfl
      | some q =>
        have hk : q.1 = x := by simpa using List.find?_some hf
        exact absurd (hk ▸ List.mem_map_of_mem (·.1)
          (List.mem_of_find?_eq_some hf)) hx
    simp [SubwayGraph.complex_id_to_name, hfind]
  · intro hnm
    have hfind : g.nodes.find? (fun p => p.2.stop_name == nm) = none := by
      cases hf : g.nodes.find? (fun p => p.2.stop_name == nm) with
      | none => rfl
      | some q =>
        exact absurd (by simpa using List.find?_some hf)
          (hnm q (List.mem_of_find?_eq_some hf))
    simp [SubwayGraph.stop_name_to_complex_id, hfind]
  · intro hxu
    simp [MTAComplexGraph.shortest_path, nxShortestPathU, hxu]

/-- Witness instantiating `C2_unknown_identifier_behaviour` on concrete
built snapshots. -/
theorem C2_unknown_identifier_behaviour_witness :
    SubwayGraph.successors (some (gBuilt, cdBuilt)) "zz" =
      .error .networkXError ∧
    SubwayGraph.all_shortest_paths (some (gBuilt, cdBuilt)) "1" "zz" =
      .ok [] ∧
    SubwayGraph.connecting_lines (some (gBuilt, cdBuilt)) "zz" "1" = .ok [] ∧
    SubwayGraph.complex_id_to_name (some (gBuilt, cdBuilt)) "zz" = .ok none ∧
    SubwayGraph.stop_name_to_complex_id (some (gBuilt, cdBuilt)) "Nowhere" =
      .ok none ∧
    MTAComplexGraph.shortest_path (some (uBuilt, cdBuilt)) "zz" "1" =
      .error .nodeNotFound := by
  have hmain := C2_unknown_identifier_behaviour gBuilt cdBuilt uBuilt cdBuilt
    "zz" "1" "Nowhere" (by unfold WFD; decide) (by decide)
  exact ⟨hmain.1, hmain.2.2.2.2.1 (by decide) (by decide), hmain.2.2.2.2.2.1,
    hmain.2.2.2.2.2.2.2.2.1, hmain.2.2.2.2.2.2.2.2.2.1 (by decide),
    hmain.2.2.2.2.2.2.2.2.2.2 (by decide)⟩

/-! ## Claim C8 -/

/-- C8 counterexample: `get_directions_for_path` on a path with fewer than
two nodes, invoked before any build, returns the empty list (a value)
instead of failing with the "not built" condition. -/
theorem C8_counterexample_short_path_returns :
    SubwayGraph.get_directions_for_path (none : SubwayState) ["618"] =
      .ok [] ∧
    SubwayGraph.get_directions_for_path (none : SubwayState) ["618"] ≠
      .error .notBuilt := by
  refine ⟨rfl, fun hcontra => ?_⟩
  exact Except.noConfusion
    ((rfl : SubwayGraph.get_directions_for_path (none : SubwayState) ["618"] =
      .ok []).symm.trans hcontra)

/-- C8 (amended): before any successful build every query of the
programmatic surface fails with the distinct "not built" error, except
`get_directions_for_path`, which consults the graph only per hop: on a
path with fewer than two nodes it returns `[]` without failing, and with
two or more nodes it fails with "not built". -/
theorem C8_not_built_behaviour (a b c nm : String) (p : List String) :
    (2 ≤ p.length →
      SubwayGraph.get_directions_for_path none p = .error .notBuilt) ∧
    (p.length ≤ 1 → SubwayGraph.get_directions_for_path none p = .ok []) ∧
    SubwayGraph.successors none a = .error .notBuilt ∧
    SubwayGraph.connecting_lines none a b = .error .notBuilt ∧
    SubwayGraph.lines_at_complex_id none c = .error .notBuilt ∧
    SubwayGraph.lines_at_gtfs_stop_id none c = .error .notBuilt ∧
    SubwayGraph.stop_name_to_complex_id none nm = .error .notBuilt ∧
    SubwayGraph.complex_id_to_name none c = .error .notBuilt ∧
    SubwayGraph.shortest_path none a b = .error .notBuilt ∧
    SubwayGraph.shortest_path_with_lines none a b = .error .notBuilt ∧
    SubwayGraph.get_directions none a b = .error .notBuilt ∧
    SubwayGraph.all_shortest_paths none a b = .error .notBuilt ∧
    SubwayGraph.get_all_directions none a b = .error .notBuilt ∧
    MTAComplexGraph.connecting_lines none a b = .error .notBuilt ∧
    MTAComplexGraph.shortest_path none a b = .error .notBuilt := by
  refine ⟨?_, ?_, rfl, rfl, rfl, rfl, rfl, rfl, rfl, rfl, rfl, rfl, rfl,
    rfl, rfl⟩
  · intro hlen
    cases p with
    | nil => simp at hlen
    | cons x q =>
      cases q with
      | nil => simp at hlen
      | cons y t => rfl
  · intro hlen
    cases p with
    | nil => rfl
    | cons x q =>
      cases q with
      | nil => rfl
      | cons y t =>
        simp only [List.length_cons] at hlen
        omega

/-- Witness instantiating `C8_not_built_behaviour` at concrete arguments. -/
theorem C8_not_built_behaviour_witness :
    SubwayGraph.get_directions_for_path none ["618", "619"] =
      .error .notBuilt ∧
    SubwayGraph.get_directions_for_path none ([] : List String) = .ok [] ∧
    SubwayGraph.get_directions none "618" "619" = .error .notBuilt :=
  ⟨(C8_not_built_behaviour "618" "619" "620" "Times Square"
      ["618", "619"]).1 (by decide),
    (C8_not_built_behaviour "618" "619" "620" "Times Square"
      ([] : List String)).2.1 (by decide),
    (C8_not_built_behaviour "618" "619" "620" "Times Square"
      ([] : List String)).2.2.2.2.2.2.2.2.2.2.1⟩

/-! ## Claim C9 -/

lemma mapM_ok_of_forall {β γ : Type} (f : β → γ) (body : β → Except PyErr γ)
    (h : ∀ x, body x = .ok (f x)) :
    ∀ l : List β, l.mapM body = .ok (l.map f) := by
  intro l
  induction l with
  | nil => rfl
  | cons x xs ih => rw [List.mapM_cons, h x, except_bind_ok, ih]; rfl

lemma head_withLines_fst (g : DiGraph) (y : String) (t : List String) :
    ((withLines g (y :: t)).headD ("", [])).1 = y := by
  cases t with
  | nil => rfl
  | cons z t2 => rfl

lemma withLines_ne_nil (g : DiGraph) (p : List String) :
    (withLines g p).isEmpty = false := by
  simp [withLines]

lemma withLines_cons_cons (g : DiGraph) (x y : String) (t : List String) :
    withLines g (x :: y :: t) =
      (x, linesGetD g x y) :: withLines g (y :: t) := by
  unfold withLines
  rw [show consecPairs (x :: y :: t) = (x, y) :: consecPairs (y :: t) from rfl,
    List.map_cons, List.cons_append]
  simp only [List.getLastD_cons]

lemma steps_eq (g : DiGraph) : ∀ (p : List String), p ≠ [] →
    (consecPairs (withLines g p)).map (stepRender g) =
      (consecPairs p).map (hopLine g) := by
  intro p
  induction p with
  | nil => intro h2; exact absurd rfl h2
  | cons x q ih =>
    intro _
    cases q with
    | nil => rfl
    | cons y t =>
      rw [withLines_cons_cons]
      obtain ⟨w, ws, hws⟩ : ∃ w ws, withLines g (y :: t) = w :: ws := by
        cases hW2 : withLines g (y :: t) with
        | nil =>
          have := withLines_ne_nil g (y :: t)
          rw [hW2] at this
          exact Bool.noConfusion this
        | cons w ws => exact ⟨w, ws, rfl⟩
      rw [hws]
      rw [show consecPairs ((x, linesGetD g x y) :: w :: ws) =
        ((x, linesGetD g x y), w) :: consecPairs (w :: ws) from rfl]
      rw [List.map_cons]
      have hwfst : w.1 = y := by
        have hh := head_withLines_fst g y t
        rw [hws] at hh
        simpa using hh
      have h1 : stepRender g ((x, linesGetD g x y), w) = hopLine g (x, y) := by
        unfold stepRender hopLine
        rw [hwfst]
        by_cases hc : (linesGetD g x y).isEmpty = true
        · simp [hc]
        · simp [hc]
      rw [h1, ← hws, ih (by simp)]
      rw [show consecPairs (x :: y :: t) = (x, y) :: consecPairs (y :: t)
        from rfl, List.map_cons]

lemma spwl_eval {g : DiGraph} {cd : ComplexesData} {a b : String}
    {p : List String}
    (hp : SubwayGraph.shortest_path (some (g, cd)) a b = .ok (some p))
    (hne : p ≠ []) :
    SubwayGraph.shortest_path_with_lines (some (g, cd)) a b =
      .ok (some (withLines g p)) := by
  have hie : p.isEmpty = false := by
    cases p with
    | nil => exact absurd rfl hne
    | cons x q => rfl
  have hmapM : (consecPairs p).mapM
      (fun uv => do
        let ls ← SubwayGraph.connecting_lines (some (g, cd)) uv.1 uv.2
        pure (uv.1, ls)) =
      Except.ok ((consecPairs p).map
        (fun uv => (uv.1, linesGetD g uv.1 uv.2))) :=
    mapM_ok_of_forall _ _ (fun uv => rfl) _
  unfold SubwayGraph.shortest_path_with_lines
  rw [hp, except_bind_ok]
  dsimp only
  rw [hie]
  simp only [Bool.false_eq_true, if_false]
  rw [hmapM, except_bind_ok, except_pure]
  rfl

/-- C9: for every pair joined by a path, `get_directions` renders exactly
the newline-join of a `"Start at {name} ({id})"` line and, per hop,
`"Take the {comma-joined lines} trains to {name} ({id})"` when the hop's
line list is non-empty and `"Transfer at {name} ({id})"` when it is
empty. -/
theorem C9_directions_format (g : DiGraph) (cd : ComplexesData) (a b : String)
    (p : List String)
    (hp : SubwayGraph.shortest_path (some (g, cd)) a b = .ok (some p))
    (hne : p ≠ []) :
    SubwayGraph.get_directions (some (g, cd)) a b =
      .ok (some (directionsSpec g p)) := by
  have hpwl := spwl_eval hp hne
  have hsteps : ∀ s2 : (String × List String) × (String × List String),
      ((do
        let nm ← SubwayGraph.complex_id_to_name (some (g, cd)) s2.2.1
        if !(s2.1.2.isEmpty) then
          pure ("Take the " ++ String.intercalate ", " s2.1.2 ++
            " trains to " ++ pyStrOpt nm ++ " (" ++ s2.2.1 ++ ")")
        else
          pure ("Transfer at " ++ pyStrOpt nm ++ " (" ++ s2.2.1 ++ ")")) :
        Except PyErr String) = .ok (stepRender g s2) := by
    intro s2
    have h1 : SubwayGraph.complex_id_to_name (some (g, cd)) s2.2.1 =
        .ok (nodeNameD g s2.2.1) := rfl
    rw [h1, except_bind_ok]
    unfold stepRender
    by_cases hc : (!(s2.1.2.isEmpty)) = true
    · rw [if_pos hc, if_pos hc, except_pure]
    · rw [if_neg hc, if_neg hc, except_pure]
  have hhead : ((withLines g p).headD ("", [])).1 = p.headD "" := by
    cases p with
    | nil => exact absurd rfl hne
    | cons x q => rw [head_withLines_fst]; rfl
  have hname : SubwayGraph.complex_id_to_name (some (g, cd))
      ((withLines g p).headD ("", [])).1 =
      .ok (nodeNameD g ((withLines g p).headD ("", [])).1) := rfl
  unfold SubwayGraph.get_directions
  rw [hpwl, except_bind_ok]
  dsimp only
  rw [withLines_ne_nil]
  simp only [Bool.false_eq_true, if_false]
  rw [hname, except_bind_ok,
    mapM_ok_of_forall (stepRender g) _ hsteps, except_bind_ok, except_pure,
    steps_eq g p hne, hhead]
  unfold directionsSpec
  rfl

/-- Witness: the specification's concrete scenario — path
`[idA, idB, idC]`, lines `["N","Q"]` then `[]` — rendered exactly. -/
theorem C9_directions_format_witness :
    SubwayGraph.shortest_path (some (g9, cd9)) "idA" "idC" =
      .ok (some ["idA", "idB", "idC"]) ∧
    SubwayGraph.get_directions (some (g9, cd9)) "idA" "idC" =
      .ok (some ("Start at A (idA)" ++ "\n" ++
        "Take the N, Q trains to B (idB)" ++ "\n" ++
        "Transfer at C (idC)")) := by
  constructor
  · rfl
  · rw [C9_directions_format g9 cd9 "idA" "idC" ["idA", "idB", "idC"] rfl
      (by decide)]
    rfl

end MTA
